import Mathlib

/-!
# Ecosystem simulation on a toroidal grid (`src/main.cpp`)

A shallow embedding of the simulation: the grid `field` of shared pointers, the three
creature classes `Carrot`, `Rabbit`, `Wolf` with their `moveAndAct` methods, the
maintenance procedures, `printField`, the seeding loops and the tick of `main`.

Modelling decisions.

* `std::shared_ptr<Creature>` is a pointer: a grid cell holds `Option Nat`, the address of
  an object in `World.heap`.  `std::make_shared` takes the address `World.next`.  Objects
  that are no longer referenced stay in the heap: the source's accesses through `this`
  after the owning cell has been overwritten are modelled as accesses to that stale entry.
* `float hunger` is a binary32 value.  It is held as an integer number of units of
  `2^-149` (every finite binary32 value is such a multiple) and `hunger += c`,
  `hunger -= c` with a `double` constant `c` are computed exactly and then rounded to
  nearest-even, first to 53 and then to 24 significant bits.  Overflow to infinity is out
  of the range the simulation can reach and is not modelled.
* `int` fields are unbounded integers: coordinates stay in `[0, FIELD_SIZE)`, `lifeSpan`
  and `eatenHares` stay tiny.  C++ `%` is `Int.tmod`.
* The three random sources (`Rabbit::rng`, `Wolf::rng`, `rand()`) are streams of raw
  outcomes `Nat → Nat`; a `uniform_int_distribution(lo, hi)` maps a raw outcome into
  `[lo, hi]`, `rand() % FIELD_SIZE` into `[0, FIELD_SIZE)`.
* The two unbounded `while` loops of the maintenance procedures take a fuel argument and
  return `none` when it runs out.
* `std::cout` is the list of the characters written to it.
-/

namespace Sim

/-! ## binary32 hunger arithmetic -/

/-- Number of binary digits of `m` (`fuel ≥` that number). -/
def bitLen : Nat → Nat → Nat
  | 0, _ => 0
  | fuel + 1, m => if m = 0 then 0 else bitLen fuel (m / 2) + 1

/-- Round the natural number `m` to `p` significant binary digits, ties to even. -/
def roundNat (p : Nat) (m : Nat) : Nat :=
  let len := bitLen m m
  if len ≤ p then m
  else
    let s := len - p
    let q := m / 2 ^ s
    let r := m % 2 ^ s
    let half := 2 ^ (s - 1)
    if half < r ∨ (r = half ∧ q % 2 = 1) then (q + 1) * 2 ^ s else q * 2 ^ s

/-- Round an integer (in units of `2^-149`) to `p` significant binary digits. -/
def roundSig (p : Nat) (n : Int) : Int :=
  if n < 0 then -((roundNat p n.natAbs : Nat) : Int) else ((roundNat p n.natAbs : Nat) : Int)

/-- The `double` literal `0.2`, i.e. `3602879701896397 / 2^54`, in units of `2^-149`. -/
def c02 : Int := 3602879701896397 * 2 ^ 95

/-- The `double` literal `0.4`, i.e. `3602879701896397 / 2^53`, in units of `2^-149`. -/
def c04 : Int := 3602879701896397 * 2 ^ 96

/-- The literal `0.5`. -/
def c05 : Int := 2 ^ 148

/-- The literal `1.0` (initial hunger of a `Rabbit`). -/
def f32one : Int := 2 ^ 149

/-- The literal `2.0` (initial hunger of a `Wolf`). -/
def f32two : Int := 2 ^ 150

/-- `hunger += c`: the sum is formed in `double` and stored back into the `float`. -/
def f32add (h c : Int) : Int := roundSig 24 (roundSig 53 (h + c))

/-- `hunger -= c`: the difference is formed in `double` and stored back into the `float`. -/
def f32sub (h c : Int) : Int := roundSig 24 (roundSig 53 (h - c))

/-! ## Data model -/

def FIELD_SIZE : Int := 10
def MIN_WOLVES : Int := 5
def MIN_RABBITS : Int := 5

/-- The three classes derived from `Creature`, with the base fields `x`, `y`. -/
inductive Creature where
  | Carrot (x y : Int) (lifeSpan : Int)
  | Rabbit (x y : Int) (hunger : Int)
  | Wolf (x y : Int) (hunger : Int) (eatenHares : Int) (hasReproduced : Bool)
  deriving DecidableEq, Repr

/-- The stored coordinate `x` of a creature. -/
def Creature.x : Creature → Int
  | .Carrot x _ _ => x
  | .Rabbit x _ _ => x
  | .Wolf x _ _ _ _ => x

/-- The stored coordinate `y` of a creature. -/
def Creature.y : Creature → Int
  | .Carrot _ y _ => y
  | .Rabbit _ y _ => y
  | .Wolf _ y _ _ _ => y

def Creature.isCarrot : Creature → Bool
  | .Carrot _ _ _ => true
  | _ => false

def Creature.isRabbit : Creature → Bool
  | .Rabbit _ _ _ => true
  | _ => false

def Creature.isWolf : Creature → Bool
  | .Wolf _ _ _ _ _ => true
  | _ => false

/-- The grid `field[i][j]` of shared pointers (`none` is the null pointer). -/
abbrev Grid := Int → Int → Option Nat

/-- The assignment `field[i][j] = v`. -/
def Grid.put (f : Grid) (i j : Int) (v : Option Nat) : Grid :=
  fun a b => if a = i ∧ b = j then v else f a b

/-- Program state: the grid, the objects, and the three random sources. -/
structure World where
  field : Grid
  heap : Nat → Option Creature
  next : Nat
  rabbitRng : Nat → Nat
  wolfRng : Nat → Nat
  crand : Nat → Nat

/-- The assignment `field[i][j] = v` on a state. -/
def World.setCell (w : World) (i j : Int) (v : Option Nat) : World :=
  { w with field := w.field.put i j v }

/-- Overwrite the object at address `p`. -/
def World.setHeap (w : World) (p : Nat) (c : Creature) : World :=
  { w with heap := fun q => if q = p then some c else w.heap q }

/-- The call `std::make_shared<T>(...)`: a new object at a fresh address. -/
def World.alloc (w : World) (c : Creature) : World × Nat :=
  ({ w with heap := fun q => if q = w.next then some c else w.heap q, next := w.next + 1 },
    w.next)

/-- The object a cell points to. -/
def World.actor (w : World) (i j : Int) : Option Creature :=
  match w.field i j with
  | some p => w.heap p
  | none => none

/-- The test `dynamic_cast<Carrot *>(field[i][j].get())`. -/
def World.isCarrot (w : World) (i j : Int) : Bool :=
  match w.actor i j with
  | some c => c.isCarrot
  | none => false

/-- The test `dynamic_cast<Rabbit *>(field[i][j].get())`. -/
def World.isRabbit (w : World) (i j : Int) : Bool :=
  match w.actor i j with
  | some c => c.isRabbit
  | none => false

/-- The test `dynamic_cast<Wolf *>(field[i][j].get())`. -/
def World.isWolf (w : World) (i j : Int) : Bool :=
  match w.actor i j with
  | some c => c.isWolf
  | none => false

/-- An outcome of `std::uniform_int_distribution<int>(lo, hi)`: a value of `[lo, hi]`. -/
def uniformInt (lo hi : Int) (raw : Nat) : Int :=
  lo + (raw : Int) % (hi - lo + 1)

/-- The wrapped destination coordinate `(c + d + FIELD_SIZE) % FIELD_SIZE`. -/
def wrap (c d : Int) : Int := (c + d + FIELD_SIZE).tmod FIELD_SIZE

/-! ## Behaviour of the creatures -/

/-- The method `Carrot::moveAndAct`. -/
def Carrot.moveAndAct (w : World) (this : Nat) : World :=
  match w.heap this with
  | some (.Carrot x y lifeSpan) =>
    let w1 := w.setHeap this (.Carrot x y (lifeSpan - 1))
    if lifeSpan - 1 ≤ 0 then w1.setCell x y none else w1
  | _ => w

/-- The method `Rabbit::moveAndAct`. -/
def Rabbit.moveAndAct (w : World) (this : Nat) : World :=
  match w.heap this with
  | some (.Rabbit x y hunger) =>
    if hunger ≤ 0 then w.setCell x y none
    else
      let dx := uniformInt (-1) 1 (w.rabbitRng 0)
      let dy := uniformInt (-1) 1 (w.rabbitRng 1)
      let w1 := { w with rabbitRng := fun n => w.rabbitRng (n + 2) }
      let nx := wrap x dx
      let ny := wrap y dy
      if w1.field nx ny = none ∨ w1.isCarrot nx ny = true then
        let hunger1 := if w1.isCarrot nx ny = true then f32add hunger c02 else hunger
        let w2 := (w1.setCell nx ny (w1.field x y)).setCell x y none
        w2.setHeap this (.Rabbit nx ny (f32sub hunger1 c02))
      else w1.setHeap this (.Rabbit x y (f32sub hunger c02))
  | _ => w

/-- One iteration of the `for (attempt ...)` loop of `Wolf::moveAndAct`; the flag tells
whether the iteration ended in `break`. -/
def Wolf.attempt (w : World) (this : Nat) (moveRange : Int) : World × Bool :=
  match w.heap this with
  | some (.Wolf x y hunger eatenHares hasReproduced) =>
    let dx := uniformInt (-moveRange) moveRange (w.wolfRng 0)
    let dy := uniformInt (-moveRange) moveRange (w.wolfRng 1)
    let w1 := { w with wolfRng := fun n => w.wolfRng (n + 2) }
    if dx = 0 ∧ dy = 0 then (w1, false)
    else
      let nx := wrap x dx
      let ny := wrap y dy
      if w1.field nx ny = none ∨ w1.isRabbit nx ny = true then
        if w1.isRabbit nx ny = true then
          if eatenHares + 1 > 2 ∧ hasReproduced = false then
            let w2 := (w1.alloc (.Wolf x y f32two 0 false)).1
            let w3 := w2.setCell x y (some (w1.alloc (.Wolf x y f32two 0 false)).2)
            let w4 := (w3.setCell nx ny (w3.field x y)).setCell x y none
            (w4.setHeap this (.Wolf nx ny (f32add hunger c04) (eatenHares + 1) true), true)
          else
            let w4 := (w1.setCell nx ny (w1.field x y)).setCell x y none
            (w4.setHeap this
              (.Wolf nx ny (f32add hunger c04) (eatenHares + 1) hasReproduced), true)
        else
          let w4 := (w1.setCell nx ny (w1.field x y)).setCell x y none
          (w4.setHeap this (.Wolf nx ny hunger eatenHares hasReproduced), true)
      else (w1, false)
  | _ => (w, true)

/-- The `for (int attempt = 0; attempt < n; ++attempt)` loop of `Wolf::moveAndAct`. -/
def Wolf.attempts : Nat → World → Nat → Int → World
  | 0, w, _, _ => w
  | n + 1, w, this, moveRange =>
    match Wolf.attempt w this moveRange with
    | (w1, true) => w1
    | (w1, false) => Wolf.attempts n w1 this moveRange

/-- The method `Wolf::moveAndAct`. -/
def Wolf.moveAndAct (w : World) (this : Nat) : World :=
  match w.heap this with
  | some (.Wolf x y hunger _ _) =>
    if hunger ≤ 0 then w.setCell x y none
    else
      let moveRange : Int := if hunger < c05 then 2 else 1
      let w1 := Wolf.attempts 5 w this moveRange
      match w1.heap this with
      | some (.Wolf x1 y1 hunger1 eaten1 repr1) =>
        w1.setHeap this (.Wolf x1 y1 (f32sub hunger1 c02) eaten1 repr1)
      | _ => w1
  | _ => w

/-- The virtual call `p->moveAndAct(field)`. -/
def moveAndAct (w : World) (p : Nat) : World :=
  match w.heap p with
  | some (.Carrot _ _ _) => Carrot.moveAndAct w p
  | some (.Rabbit _ _ _) => Rabbit.moveAndAct w p
  | some (.Wolf _ _ _ _ _) => Wolf.moveAndAct w p
  | none => w

/-! ## The tick of `main` -/

/-- The indices `0, …, FIELD_SIZE - 1` of a `for` loop over one axis. -/
def axis : List Int := [0, 1, 2, 3, 4, 5, 6, 7, 8, 9]

/-- All cells in the row-major order of the nested `for` loops. -/
def cells : List (Int × Int) := axis.flatMap fun i => axis.map fun j => (i, j)

/-- The loop body `if (field[i][j]) field[i][j]->moveAndAct(field);`. -/
def actCell (w : World) (c : Int × Int) : World :=
  match w.field c.1 c.2 with
  | some p => moveAndAct w p
  | none => w

/-- The Acting pass: the nested `for` loops at the top of the `while (true)` body. -/
def actingPass (w : World) : World := cells.foldl actCell w

/-- The value `rand() % FIELD_SIZE` for a raw outcome of `rand()`. -/
def randCoord (raw : Nat) : Int := (raw : Int).tmod FIELD_SIZE

/-- Take two outcomes of `rand()` as a cell `(x, y)`. -/
def World.pick (w : World) : (Int × Int) × World :=
  ((randCoord (w.crand 0), randCoord (w.crand 1)),
    { w with crand := fun n => w.crand (n + 2) })

/-- The assignment `field[x][y] = std::make_shared<T>(x, y)` for the new object `c`. -/
def World.place (w : World) (x y : Int) (c : Creature) : World :=
  (w.alloc c).1.setCell x y (some (w.alloc c).2)

/-- One iteration of the loop of `addNewCarrots`. -/
def addNewCarrots.step (w : World) : World :=
  let w1 := w.pick.2
  let x := w.pick.1.1
  let y := w.pick.1.2
  if w1.field x y = none then w1.place x y (.Carrot x y 5) else w1

/-- The procedure `addNewCarrots`. -/
def addNewCarrots (w : World) : World := addNewCarrots.step^[5] w

/-- The counting loops of `ensureRabbitBalance`. -/
def countRabbits (w : World) : Int := (cells.countP fun c => w.isRabbit c.1 c.2 : Nat)

/-- The counting loops of `ensureMinimumWolves`. -/
def countWolves (w : World) : Int := (cells.countP fun c => w.isWolf c.1 c.2 : Nat)

/-- The loop `while (rabbitCount < MIN_RABBITS)` of `ensureRabbitBalance`. -/
def ensureRabbitBalance.loop : Nat → World → Int → Option World
  | 0, w, rabbitCount => if rabbitCount < MIN_RABBITS then none else some w
  | fuel + 1, w, rabbitCount =>
    if rabbitCount < MIN_RABBITS then
      let w1 := w.pick.2
      let x := w.pick.1.1
      let y := w.pick.1.2
      if w1.field x y = none then
        ensureRabbitBalance.loop fuel (w1.place x y (.Rabbit x y f32one)) (rabbitCount + 1)
      else ensureRabbitBalance.loop fuel w1 rabbitCount
    else some w

/-- The procedure `ensureRabbitBalance`. -/
def ensureRabbitBalance (fuel : Nat) (w : World) : Option World :=
  ensureRabbitBalance.loop fuel w (countRabbits w)

/-- The inner `for` loop of `ensureMinimumWolves` over the rows `is`; the second
component is the increment of `wolfCount`. -/
def ensureMinimumWolves.scan (w : World) : List Int → World × Int
  | [] => (w, 0)
  | i :: rest =>
    if w.field i 0 = none then (w.place i 0 (.Wolf i 0 f32two 0 false), 1)
    else if w.field i (FIELD_SIZE - 1) = none then
      (w.place i (FIELD_SIZE - 1) (.Wolf i (FIELD_SIZE - 1) f32two 0 false), 1)
    else ensureMinimumWolves.scan w rest

/-- The loop `while (wolfCount < MIN_WOLVES)` of `ensureMinimumWolves`. -/
def ensureMinimumWolves.loop : Nat → World → Int → Option World
  | 0, w, wolfCount => if wolfCount < MIN_WOLVES then none else some w
  | fuel + 1, w, wolfCount =>
    if wolfCount < MIN_WOLVES then
      ensureMinimumWolves.loop fuel (ensureMinimumWolves.scan w axis).1
        (wolfCount + (ensureMinimumWolves.scan w axis).2)
    else some w

/-- The procedure `ensureMinimumWolves`. -/
def ensureMinimumWolves (fuel : Nat) (w : World) : Option World :=
  ensureMinimumWolves.loop fuel w (countWolves w)

/-- The maintenance phase of a tick. -/
def maintenance (fuel : Nat) (w : World) : Option World :=
  (ensureRabbitBalance fuel (addNewCarrots w)).bind (ensureMinimumWolves fuel)

/-- One iteration of the `while (true)` loop of `main`, up to `printField`. -/
def tick (fuel : Nat) (w : World) : Option World := maintenance fuel (actingPass w)

/-- The state of `main` before the seeding loops: an empty grid and no objects. -/
def emptyWorld (rabbitRng wolfRng crand : Nat → Nat) : World :=
  { field := fun _ _ => none, heap := fun _ => none, next := 0,
    rabbitRng := rabbitRng, wolfRng := wolfRng, crand := crand }

/-- One iteration of a seeding loop: `field[x][y] = std::make_shared<T>(x, y)`. -/
def seedStep (mk : Int → Int → Creature) (w : World) : World :=
  w.pick.2.place w.pick.1.1 w.pick.1.2 (mk w.pick.1.1 w.pick.1.2)

/-- The three seeding loops of `main`. -/
def seed (rabbitRng wolfRng crand : Nat → Nat) : World :=
  (seedStep fun x y => .Wolf x y f32two 0 false)^[5]
    ((seedStep fun x y => .Rabbit x y f32one)^[10]
      ((seedStep fun x y => .Carrot x y 5)^[15] (emptyWorld rabbitRng wolfRng crand)))

/-- Every actor held in a cell has that cell as its stored coordinates. -/
def CoordInv (w : World) : Prop :=
  ∀ c ∈ cells, ∀ a, w.actor c.1 c.2 = some a → a.x = c.1 ∧ a.y = c.2

instance (w : World) : Decidable (CoordInv w) := by
  unfold CoordInv; infer_instance

/-! ## Runs of a single actor and concrete scenarios -/

/-- A random source that yields the outcomes of `l` and then `d` for ever. -/
def streamOf (l : List Nat) (d : Nat) : Nat → Nat := fun n => l.getD n d

/-- The destination `(nx, ny)` the `Rabbit` at address `this` computes in its next act. -/
def Rabbit.dest (w : World) (this : Nat) : Int × Int :=
  match w.heap this with
  | some c => (wrap c.x (uniformInt (-1) 1 (w.rabbitRng 0)),
      wrap c.y (uniformInt (-1) 1 (w.rabbitRng 1)))
  | none => (0, 0)

/-- The destination `(nx, ny)` of the trial whose two draws are the outcomes `2 * k` and
`2 * k + 1` of `Wolf::rng`, for a `Wolf` at `(x, y)` with the given `moveRange`. -/
def Wolf.dest (w : World) (x y moveRange : Int) (k : Nat) : Int × Int :=
  (wrap x (uniformInt (-moveRange) moveRange (w.wolfRng (2 * k))),
    wrap y (uniformInt (-moveRange) moveRange (w.wolfRng (2 * k + 1))))

/-- The hunger of a `Rabbit` created with hunger `1.0` after `k` executions of
`hunger -= 0.2` and none of `hunger += 0.2`. -/
def hungerAfter (k : Nat) : Int := (fun h => f32sub h c02)^[k] f32one

/-- A grid that is empty except for one new `Rabbit` at `(0, 0)`; every draw of
`Rabbit::rng` is the offset `0`. -/
def preyWorld : World :=
  (emptyWorld (streamOf [] 1) (streamOf [] 1) (streamOf [] 0)).place 0 0 (.Rabbit 0 0 f32one)

/-- One new `Rabbit` at `(2, 2)` and one new `Carrot` at `(2, 3)`, with the given
`Rabbit::rng`. -/
def preyFoodWorld (rabbitRng : Nat → Nat) : World :=
  ((emptyWorld rabbitRng (streamOf [] 1) (streamOf [] 0)).place 2 2
    (.Rabbit 2 2 f32one)).place 2 3 (.Carrot 2 3 5)

/-- The source that always yields `dx = 1`, `dy = 0` from `uniformInt (-1) 1`. -/
def drawsDx1Dy0 : Nat → Nat := fun n => if n % 2 = 0 then 2 else 1

/-- The source that always yields `dx = 0`, `dy = 1` from `uniformInt (-1) 1`. -/
def drawsDx0Dy1 : Nat → Nat := fun n => if n % 2 = 0 then 1 else 2

/-- A `Wolf` at `(0, 0)` with hunger `2.0` that has eaten two hares and has not
reproduced, next to a `Rabbit` at `(0, 1)`; its first draw is `dx = 0`, `dy = 1`. -/
def reproWorld : World :=
  ((emptyWorld (streamOf [] 1) (streamOf [1, 2] 1) (streamOf [] 0)).place 0 0
    (.Wolf 0 0 f32two 2 false)).place 0 1 (.Rabbit 0 1 f32one)

/-- Outcomes of `rand()` for a seeding that leaves a `Carrot` at `(5, 5)`, `Rabbit`s at
`(0, 1)`, `(0, 2)`, `(0, 3)` and a `Wolf` at `(0, 0)`, followed by the picks of the first
maintenance phase: `(5, 5)` five times, then `(9, 1)`, …, `(9, 5)`. -/
def seedRand : Nat → Nat :=
  streamOf (List.replicate 30 5 ++ [0, 1, 0, 2, 0, 3]
    ++ [0, 3, 0, 3, 0, 3, 0, 3, 0, 3, 0, 3, 0, 3] ++ List.replicate 10 0
    ++ List.replicate 10 5 ++ [9, 1, 9, 2, 9, 3, 9, 4, 9, 5]) 0

/-- Outcomes of `Wolf::rng`: three times `dx = 0`, `dy = 1`, then `dx = dy = 0` for ever
(for `moveRange = 1`). -/
def seedWolfRng : Nat → Nat := streamOf [1, 2, 1, 2, 1, 2] 1

/-- The seeded state of the run above. -/
def seededWorld : World := seed (streamOf [] 1) seedWolfRng seedRand

/-- A new `Wolf` at `(0, 0)` next to a `Carrot` at `(0, 1)`; every trial draws `dx = 0`,
`dy = 1`. -/
def blockedWolfWorld : World :=
  ((emptyWorld (streamOf [] 1) drawsDx0Dy1 (streamOf [] 0)).place 0 0
    (.Wolf 0 0 f32two 0 false)).place 0 1 (.Carrot 0 1 5)

/-- The loop of `Wolf::moveAndAct` ended in `break` for a `Wolf` at `(x, y)` whose flag is
set: `w1` is `w` after `field[nx][ny] = field[x][y]; field[x][y].reset()` towards a cell
that held no `Wolf`, with the fields of `this` updated. -/
def MovedTo (w w1 : World) (this : Nat) (x y : Int) : Prop :=
  ∃ nx ny h1 e1, w.isWolf nx ny = false
    ∧ w1.field = (w.field.put nx ny (w.field x y)).put x y none
    ∧ w1.heap = (fun q => if q = this then some (.Wolf nx ny h1 e1 true) else w.heap q)
    ∧ w1.next = w.next

/-- The states `w` and `w1` have the same grid and the same objects. -/
def SameGrid (w w1 : World) : Prop :=
  w1.field = w.field ∧ w1.heap = w.heap ∧ w1.next = w.next

/-- The test `dynamic_cast<T *>(v.get())` for a pointer `v`, where `k` recognises `T`. -/
def ptrIs (k : Creature → Bool) (heap : Nat → Option Creature) : Option Nat → Bool
  | none => false
  | some p =>
    match heap p with
    | some c => k c
    | none => false

/-- Every pointer held by the grid was returned by an earlier `std::make_shared`, so the
next allocation does not alias it. -/
def World.Fresh (w : World) : Prop := ∀ i j p, w.field i j = some p → p < w.next

/-- A `Wolf` at `(0, 0)` that has eaten three hares and has reproduced, next to a `Rabbit`
at `(0, 1)`; every trial draws `dx = 0`, `dy = 1`. -/
def flaggedWolfWorld : World :=
  ((emptyWorld (streamOf [] 1) drawsDx0Dy1 (streamOf [] 0)).place 0 0
    (.Wolf 0 0 f32two 3 true)).place 0 1 (.Rabbit 0 1 f32one)

/-- A grid at the start of a maintenance phase: a `Wolf` at `(0, 0)`, a `Carrot` at
`(0, 9)` and a `Rabbit` at `(3, 3)`; the picks are `(5, 5)`, …, `(5, 9)` for
`addNewCarrots` and `(3, 3)` (occupied), `(9, 1)`, …, `(9, 4)` for `ensureRabbitBalance`. -/
def maintWorld : World :=
  (((emptyWorld (streamOf [] 1) (streamOf [] 1)
      (streamOf [5, 5, 5, 6, 5, 7, 5, 8, 5, 9, 3, 3, 9, 1, 9, 2, 9, 3, 9, 4] 0)).place 0 0
    (.Wolf 0 0 f32two 0 false)).place 0 9 (.Carrot 0 9 5)).place 3 3 (.Rabbit 3 3 f32one)

/-- The first `n` cells `(x, y)` picked by successive pairs of outcomes of `rand()`. -/
def World.picks (w : World) (n : Nat) : List (Int × Int) :=
  (List.range n).map fun k => (randCoord (w.crand (2 * k)), randCoord (w.crand (2 * k + 1)))

/-- The cells of columns `0` and `FIELD_SIZE - 1` of the rows `rows`, in the order in which
the inner loop of `ensureMinimumWolves` inspects them. -/
def edgeCellsOf (rows : List Int) : List (Int × Int) :=
  rows.flatMap fun i => [(i, 0), (i, FIELD_SIZE - 1)]

/-- The empty cells of columns `0` and `FIELD_SIZE - 1`, in the order `(0, 0)`,
`(0, FIELD_SIZE - 1)`, `(1, 0)`, `(1, FIELD_SIZE - 1)`, … -/
def World.emptyEdges (w : World) (rows : List Int) : List (Int × Int) :=
  (edgeCellsOf rows).filter fun c => decide (w.field c.1 c.2 = none)

/-- One iteration of the body of `while (wolfCount < MIN_WOLVES)` in `ensureMinimumWolves`,
on the pair of the grid state and `wolfCount`. -/
def ensureMinimumWolves.body (s : World × Int) : World × Int :=
  ((ensureMinimumWolves.scan s.1 axis).1, s.2 + (ensureMinimumWolves.scan s.1 axis).2)

/-- A grid without `Wolf` whose columns `0` and `FIELD_SIZE - 1` are full of `Carrot`s and
whose interior is empty. -/
def fullEdgeWorld : World :=
  (edgeCellsOf axis).foldl (fun w c => w.place c.1 c.2 (.Carrot c.1 c.2 5))
    (emptyWorld (streamOf [] 1) (streamOf [] 1) (streamOf [] 0))

/-- The state `w` after `n` more outcomes of `Wolf::rng` have been consumed. -/
def World.skipWolfDraws (w : World) (n : Nat) : World :=
  { w with wolfRng := fun j => w.wolfRng (j + n) }

/-- The trial number `k` (counted from 0) of the act of a `Wolf` at `(x, y)` in state `w`
is accepted: its offset is not `(0, 0)` and its destination is empty or holds a `Rabbit`. -/
def Wolf.Accepts (w : World) (x y moveRange : Int) (k : Nat) : Prop :=
  ¬ (uniformInt (-moveRange) moveRange (w.wolfRng (2 * k)) = 0
      ∧ uniformInt (-moveRange) moveRange (w.wolfRng (2 * k + 1)) = 0)
    ∧ (w.field (Wolf.dest w x y moveRange k).1 (Wolf.dest w x y moveRange k).2 = none
      ∨ w.isRabbit (Wolf.dest w x y moveRange k).1 (Wolf.dest w x y moveRange k).2 = true)

/-- The grid of `w1` is the grid of `w` after the move of an accepted trial `k < n` of a
`Wolf` at `(x, y)`: the destination receives `v`, which is what the origin held or the
newly created `Wolf`, and the origin is cleared. -/
def Wolf.MovedBy (w w1 : World) (x y moveRange : Int) (n : Nat) : Prop :=
  ∃ k, k < n ∧ Wolf.Accepts w x y moveRange k
    ∧ ∃ v, (v = w.field x y ∨ v = some w.next)
      ∧ w1.field = (w.field.put (Wolf.dest w x y moveRange k).1
          (Wolf.dest w x y moveRange k).2 v).put x y none

/-- The loop body of the Acting pass, which also records the object whose `moveAndAct` it
invokes. -/
def actCellTraced (s : World × List Nat) (c : Int × Int) : World × List Nat :=
  match s.1.field c.1 c.2 with
  | some p => (moveAndAct s.1 p, s.2 ++ [p])
  | none => s

/-- The Acting pass together with the objects whose `moveAndAct` it invokes, in order. -/
def actingTrace (w : World) : World × List Nat := cells.foldl actCellTraced (w, [])

/-- A grid that holds nothing but one new `Rabbit` at `(0, 0)`; every draw of
`Rabbit::rng` is `dx = 0`, `dy = 1`, the next column of the same row. -/
def hopWorld : World :=
  (emptyWorld drawsDx0Dy1 (streamOf [] 1) (streamOf [] 0)).place 0 0 (.Rabbit 0 0 f32one)

/-- The text written for cell `(i, j)` by the `if` / `else if` chain of `printField`. -/
def printField.token (w : World) (i j : Int) : List Char :=
  if w.isCarrot i j = true then "C ".toList
  else if w.isRabbit i j = true then "R ".toList
  else if w.isWolf i j = true then "W ".toList
  else ". ".toList

/-- The body of the outer loop of `printField`: the inner loop over `j`, then `"\n"`,
appended to the text `out` written so far. -/
def printField.row (w : World) (i : Int) (out : List Char) : List Char :=
  axis.foldl (fun o j => o ++ printField.token w i j) out ++ "\n".toList

/-- The procedure `printField`: the characters it writes to `std::cout`. -/
def printField (w : World) : List Char :=
  axis.foldl (fun o i => printField.row w i o) [] ++ "=========================\n".toList

/-- The single-character token of the render contract: `C` for Food, `R` for Prey, `W` for
Predator, `.` for an empty cell. -/
def glyph : Option Creature → Char
  | some (.Carrot _ _ _) => 'C'
  | some (.Rabbit _ _ _) => 'R'
  | some (.Wolf _ _ _ _ _) => 'W'
  | none => '.'

/-- Row `i` as the render contract words it: the tokens of cells `(i, 0)`, …,
`(i, FIELD_SIZE - 1)` separated by single spaces. -/
def separatedRow (w : World) (i : Int) : List Char :=
  List.intersperse ' ' (axis.map fun j => glyph (w.actor i j))

/-- Row `i` with every token followed by a space. -/
def spacedRow (w : World) (i : Int) : List Char :=
  axis.flatMap fun j => [glyph (w.actor i j), ' ']

/-- The empty grid. -/
def blankWorld : World := emptyWorld (streamOf [] 0) (streamOf [] 0) (streamOf [] 0)

/-- The cell picked by the pair number `k` (from 0) of outcomes of `rand()`. -/
def World.pickAt (w : World) (k : Nat) : Int × Int :=
  (randCoord (w.crand (2 * k)), randCoord (w.crand (2 * k + 1)))

/-- The creature that placement number `k` (from 0) of the seeding loops of `main` builds
at cell `(x, y)`: 15 `Carrot`s, then 10 `Rabbit`s, then 5 `Wolf`s. -/
def seedKind (k : Nat) (x y : Int) : Creature :=
  if k < 15 then .Carrot x y 5
  else if k < 25 then .Rabbit x y f32one
  else .Wolf x y f32two 0 false

/-- The placements number `lo`, …, `lo + n - 1` of the seeding loops, as one loop. -/
def seedFrom : Nat → Nat → World → World
  | _, 0, w => w
  | lo, n + 1, w => seedFrom (lo + 1) n (seedStep (seedKind lo) w)

/-- The number of cells that hold a `Carrot`. -/
def countCarrots (w : World) : Int := (cells.countP fun c => w.isCarrot c.1 c.2 : Nat)

/-- The cell picked by placement number `k` (from 0) of the seeding loops of `main`, for
the outcomes `crand` of `rand()`. -/
def seedPick (crand : Nat → Nat) (k : Nat) : Int × Int :=
  (randCoord (crand (2 * k)), randCoord (crand (2 * k + 1)))

/-- Outcomes of `rand()`: the seeding of `seedRand` (a `Carrot` at `(5, 5)`, `Rabbit`s at
`(0, 1)`, `(0, 2)`, `(0, 3)`, a `Wolf` at `(0, 0)`); in the first maintenance phase
`(5, 5)` five times, then `(0, 2)`, `(1, 1)`, `(9, 5)`, `(9, 6)`, `(9, 7)` for the new
`Rabbit`s; in the second `(5, 5)` five times, then `(0, 2)` for the new `Rabbit`. -/
def strayRand : Nat → Nat :=
  streamOf (List.replicate 30 5 ++ [0, 1, 0, 2, 0, 3]
    ++ [0, 3, 0, 3, 0, 3, 0, 3, 0, 3, 0, 3, 0, 3] ++ List.replicate 10 0
    ++ List.replicate 10 5 ++ [0, 2, 1, 1, 9, 5, 9, 6, 9, 7]
    ++ List.replicate 10 5 ++ [0, 2]) 0

/-- Outcomes of `Wolf::rng`: in the first tick three times `dx = 0`, `dy = 1`, then five
times `dx = dy = 0`; in the second tick `dx = 1`, `dy = 1`, then `dx = 1`, `dy = 0`; then
`dx = dy = 0` for ever. -/
def strayWolfRng : Nat → Nat :=
  streamOf ([1, 2, 1, 2, 1, 2] ++ List.replicate 10 1 ++ [2, 2, 2, 1]) 1

/-- Outcomes of `Rabbit::rng`: six times `dx = dy = 0`, then `dx = 0`, `dy = -1`, then
`dx = dy = 0` for ever. -/
def strayRabbitRng : Nat → Nat := streamOf (List.replicate 13 1 ++ [0]) 1

/-- The state of `main` after the seeding loops, for the three sources above. -/
def straySeed : World := seed strayRabbitRng strayWolfRng strayRand

/-- The state of `main` in the third tick from `straySeed`, when the Acting pass has
visited the 12 cells before `(1, 2)`. -/
def strayWorld : Option World :=
  ((tick 5 straySeed).bind (tick 5)).map fun w => (cells.take 12).foldl actCell w

/-! ## Theorems -/

/-- C7. Toroidal wrap and index safety: for a coordinate `c` in `[0, FIELD_SIZE)` and an
offset `d` in `[-2, 2]` the destination `(c + d + FIELD_SIZE) % FIELD_SIZE` lies in
`[0, FIELD_SIZE)` and is the mathematical `(c + d) mod FIELD_SIZE`; index `0` moved by
`-1` lands on `FIELD_SIZE - 1`, index `FIELD_SIZE - 1` moved by `+1` lands on `0`; and
the offsets drawn with `moveRange` 1 or 2 are such offsets, so the destination of an act
is in bounds. -/
theorem wrap_toroidal (c d : Int) (hc0 : 0 ≤ c) (hc : c < FIELD_SIZE)
    (hd0 : -2 ≤ d) (hd : d ≤ 2) :
    (0 ≤ wrap c d ∧ wrap c d < FIELD_SIZE) ∧ wrap c d = (c + d) % FIELD_SIZE
      ∧ wrap 0 (-1) = FIELD_SIZE - 1 ∧ wrap (FIELD_SIZE - 1) 1 = 0
      ∧ ∀ (raw : Nat) (moveRange : Int), moveRange = 1 ∨ moveRange = 2 →
          -2 ≤ uniformInt (-moveRange) moveRange raw
            ∧ uniformInt (-moveRange) moveRange raw ≤ 2
            ∧ 0 ≤ wrap c (uniformInt (-moveRange) moveRange raw)
            ∧ wrap c (uniformInt (-moveRange) moveRange raw) < FIELD_SIZE := by
  have key : ∀ e : Int, -2 ≤ e → e ≤ 2 →
      wrap c e = (c + e) % 10 ∧ 0 ≤ wrap c e ∧ wrap c e < 10 := by
    intro e he0 he
    have h : wrap c e = (c + e + 10) % 10 := by
      unfold wrap FIELD_SIZE at *
      exact Int.tmod_eq_emod (by omega) (by omega)
    rw [h]
    omega
  unfold FIELD_SIZE at *
  refine ⟨⟨(key d hd0 hd).2.1, (key d hd0 hd).2.2⟩, (key d hd0 hd).1, by decide, by decide, ?_⟩
  intro raw moveRange hr
  have hu : -2 ≤ uniformInt (-moveRange) moveRange raw
      ∧ uniformInt (-moveRange) moveRange raw ≤ 2 := by
    unfold uniformInt
    rcases hr with rfl | rfl
    · have h3 : ((1 : Int) - -1 + 1) = 3 := by norm_num
      rw [h3]; omega
    · have h5 : ((2 : Int) - -2 + 1) = 5 := by norm_num
      rw [h5]; omega
  exact ⟨hu.1, hu.2, (key _ hu.1 hu.2).2.1, (key _ hu.1 hu.2).2.2⟩

/-- Witness of `wrap_toroidal`: row `0` moved by `-1`. -/
theorem wrap_toroidal_witness : wrap 0 (-1) = (0 + -1) % FIELD_SIZE :=
  (wrap_toroidal 0 (-1) (by decide) (by decide) (by decide) (by decide)).2.1

/-! ### Helper lemmas -/

theorem bitLen_le (fuel : Nat) : ∀ (m L : Nat), m < 2 ^ L → bitLen fuel m ≤ L := by
  induction fuel with
  | zero => intro m L _; exact Nat.zero_le _
  | succ n ih =>
    intro m L hm
    unfold bitLen
    split
    · exact Nat.zero_le _
    · rename_i hne
      cases L with
      | zero => simp at hm; exact absurd hm hne
      | succ L =>
        have h2 : m / 2 < 2 ^ L := by
          rw [Nat.pow_succ] at hm
          omega
        have := ih (m / 2) L h2
        omega

theorem roundNat_error (p m L : Nat) (hm : m < 2 ^ L) :
    roundNat p m ≤ m + 2 ^ (L - p - 1) ∧ m ≤ roundNat p m + 2 ^ (L - p - 1) := by
  have hlen := bitLen_le m m L hm
  unfold roundNat
  simp only
  split
  · exact ⟨Nat.le_add_right _ _, Nat.le_add_right _ _⟩
  · rename_i hgt
    have hs1 : 1 ≤ bitLen m m - p := by omega
    have hpow : 2 ^ (bitLen m m - p) = 2 * 2 ^ (bitLen m m - p - 1) := by
      have e : bitLen m m - p = (bitLen m m - p - 1) + 1 := by omega
      conv_lhs => rw [e]
      rw [Nat.pow_succ]; omega
    have hmono : 2 ^ (bitLen m m - p - 1) ≤ 2 ^ (L - p - 1) :=
      Nat.pow_le_pow_right (by omega) (by omega)
    have hdm := Nat.div_add_mod m (2 ^ (bitLen m m - p))
    have hr : m % 2 ^ (bitLen m m - p) < 2 ^ (bitLen m m - p) :=
      Nat.mod_lt _ (Nat.pow_pos (by omega))
    have hc : 2 ^ (bitLen m m - p) * (m / 2 ^ (bitLen m m - p))
        = m / 2 ^ (bitLen m m - p) * 2 ^ (bitLen m m - p) := Nat.mul_comm _ _
    split
    · rename_i hup
      rw [Nat.add_mul, Nat.one_mul]
      rcases hup with h1 | ⟨h1, _⟩ <;> constructor <;> omega
    · rename_i hdn
      have hle : m % 2 ^ (bitLen m m - p) ≤ 2 ^ (bitLen m m - p - 1) := by
        by_contra hc2
        exact hdn (Or.inl (by omega))
      constructor <;> omega

theorem roundNat_lt (p m L : Nat) (hm : m < 2 ^ L) : roundNat p m < 2 ^ (L + 1) := by
  have h := (roundNat_error p m L hm).1
  have h1 : 2 ^ (L - p - 1) ≤ 2 ^ L := Nat.pow_le_pow_right (by omega) (by omega)
  rw [Nat.pow_succ]
  omega

theorem roundSig_error (p : Nat) (n : Int) (L : Nat) (h1 : -(2 ^ L : Int) < n)
    (h2 : n < 2 ^ L) :
    n - 2 ^ (L - p - 1) ≤ roundSig p n ∧ roundSig p n ≤ n + 2 ^ (L - p - 1)
      ∧ -(2 ^ (L + 1) : Int) < roundSig p n ∧ roundSig p n < 2 ^ (L + 1) := by
  have habs : n.natAbs < 2 ^ L := by
    have h3 : |n| < 2 ^ L := abs_lt.mpr ⟨h1, h2⟩
    have : ((n.natAbs : Nat) : Int) < ((2 ^ L : Nat) : Int) := by
      rw [Int.natCast_natAbs]; push_cast; exact h3
    exact_mod_cast this
  obtain ⟨e1, e2⟩ := roundNat_error p n.natAbs L habs
  have e3 := roundNat_lt p n.natAbs L habs
  have c1 : ((roundNat p n.natAbs : Nat) : Int) ≤ (n.natAbs : Int) + 2 ^ (L - p - 1) := by
    exact_mod_cast e1
  have c2 : (n.natAbs : Int) ≤ ((roundNat p n.natAbs : Nat) : Int) + 2 ^ (L - p - 1) := by
    exact_mod_cast e2
  have c3 : ((roundNat p n.natAbs : Nat) : Int) < 2 ^ (L + 1) := by
    exact_mod_cast e3
  have c4 : (0 : Int) ≤ ((roundNat p n.natAbs : Nat) : Int) := Int.natCast_nonneg _
  have c5 : (0 : Int) < 2 ^ (L + 1) := by positivity
  have c6 : (0 : Int) ≤ 2 ^ (L - p - 1) := by positivity
  have c7 := Int.natAbs_eq n
  unfold roundSig
  split
  · refine ⟨?_, ?_, ?_, ?_⟩ <;> omega
  · refine ⟨?_, ?_, ?_, ?_⟩ <;> omega

theorem f32sub_error (h c : Int) (L : Nat) (hL : 54 ≤ L) (h1 : -(2 ^ L : Int) < h - c)
    (h2 : h - c < 2 ^ L) :
    h - c - (2 ^ (L - 24) + 2 ^ (L - 54)) ≤ f32sub h c
      ∧ f32sub h c ≤ h - c + (2 ^ (L - 24) + 2 ^ (L - 54)) := by
  obtain ⟨a1, a2, a3, a4⟩ := roundSig_error 53 (h - c) L h1 h2
  obtain ⟨b1, b2, _, _⟩ := roundSig_error 24 (roundSig 53 (h - c)) (L + 1) a3 a4
  have e1 : L - 53 - 1 = L - 54 := by omega
  have e2 : L + 1 - 24 - 1 = L - 24 := by omega
  rw [e1] at a1 a2
  rw [e2] at b1 b2
  unfold f32sub
  constructor <;> omega

theorem exists_of_any {α : Type} {o : Option α} {P : α → Prop} [DecidablePred P]
    (h : o.any (fun a => decide (P a)) = true) : ∃ a, o = some a ∧ P a := by
  cases o with
  | none => simp at h
  | some a => exact ⟨a, rfl, by simpa using h⟩

/-- C6 (counterexample). With `grid[row][col]` and the draws `dx = 1`, `dy = 0`, one act of
the new `Rabbit` at `(2, 2)` next to the `Carrot` at `(2, 3)`: the offset `dx` is added to
the first index, so the `Rabbit` lands in cell `(3, 2)` with hunger `1.0 - 0.2`, cell
`(2, 3)` still holds the `Carrot` and not the `Rabbit`. -/
theorem prey_dx_moves_row :
    (∀ n < 8, uniformInt (-1) 1 (drawsDx1Dy0 (2 * n)) = 1
        ∧ uniformInt (-1) 1 (drawsDx1Dy0 (2 * n + 1)) = 0)
      ∧ (preyFoodWorld drawsDx1Dy0).actor 2 2 = some (.Rabbit 2 2 f32one)
      ∧ (preyFoodWorld drawsDx1Dy0).actor 2 3 = some (.Carrot 2 3 5)
      ∧ (actCell (preyFoodWorld drawsDx1Dy0) (2, 2)).actor 3 2
          = some (.Rabbit 3 2 (f32sub f32one c02))
      ∧ (actCell (preyFoodWorld drawsDx1Dy0) (2, 2)).actor 2 3 = some (.Carrot 2 3 5)
      ∧ ¬ ((actCell (preyFoodWorld drawsDx1Dy0) (2, 2)).isRabbit 2 3 = true) := by
  refine ⟨?_, ?_, ?_, ?_, ?_, ?_⟩ <;> decide!

/-- C6 (as amended). With `grid[row][col]`, a new `Rabbit` (hunger `1.0`) at `(2, 2)`, a
`Carrot` at `(2, 3)` and the draws `dx = 0`, `dy = 1`: after one act of the `Rabbit` it is
in cell `(2, 3)` with stored coordinates `(2, 3)` and hunger `1.0`, cell `(2, 2)` is
empty, and no `Carrot` remains on the grid. -/
theorem prey_eats_food :
    (∀ n < 8, uniformInt (-1) 1 (drawsDx0Dy1 (2 * n)) = 0
        ∧ uniformInt (-1) 1 (drawsDx0Dy1 (2 * n + 1)) = 1)
      ∧ (preyFoodWorld drawsDx0Dy1).actor 2 2 = some (.Rabbit 2 2 f32one)
      ∧ (preyFoodWorld drawsDx0Dy1).actor 2 3 = some (.Carrot 2 3 5)
      ∧ (actCell (preyFoodWorld drawsDx0Dy1) (2, 2)).actor 2 3
          = some (.Rabbit 2 3 f32one)
      ∧ (actCell (preyFoodWorld drawsDx0Dy1) (2, 2)).field 2 2 = none
      ∧ ∀ c ∈ cells, (actCell (preyFoodWorld drawsDx0Dy1) (2, 2)).isCarrot c.1 c.2 = false := by
  refine ⟨?_, ?_, ?_, ?_, ?_, ?_⟩ <;> decide!

/-- C2 (the code at the failing input). A `Wolf` at `(0, 0)` with hunger `2.0`, two eaten
hares and the flag unset, whose first trial draws the `Rabbit` at `(0, 1)`: after its act
the origin `(0, 0)` is empty, the destination holds the newly created `Wolf` (hunger
`2.0`, no eaten hare, flag unset, stored coordinates still `(0, 0)`), the parent (object
`0`) is in no cell, and the number of `Wolf` cells is the same as before. -/
theorem reproduction_loses_parent :
    reproWorld.actor 0 0 = some (.Wolf 0 0 f32two 2 false)
      ∧ reproWorld.field 0 0 = some 0
      ∧ reproWorld.isRabbit 0 1 = true
      ∧ Wolf.dest reproWorld 0 0 1 0 = (0, 1)
      ∧ (actCell reproWorld (0, 0)).field 0 0 = none
      ∧ (actCell reproWorld (0, 0)).actor 0 1 = some (.Wolf 0 0 f32two 0 false)
      ∧ (∀ c ∈ cells, ¬ ((actCell reproWorld (0, 0)).field c.1 c.2 = some 0))
      ∧ countWolves reproWorld = 1
      ∧ countWolves (actCell reproWorld (0, 0)) = 1 := by
  refine ⟨?_, ?_, ?_, ?_, ?_, ?_, ?_, ?_, ?_⟩ <;> decide!

/-- C1 (the code at the failing input). The seeding `seededWorld` (a `Wolf` at `(0, 0)`,
`Rabbit`s at `(0, 1)`, `(0, 2)`, `(0, 3)`) satisfies the coordinate invariant; its first
tick terminates, and in the state at the tick boundary cell `(0, 3)` holds a `Wolf` whose
stored coordinates are `(0, 2)`: the invariant is broken. -/
theorem coordInv_broken_by_reproduction :
    CoordInv seededWorld
      ∧ seededWorld.actor 0 0 = some (.Wolf 0 0 f32two 0 false)
      ∧ (seededWorld.isRabbit 0 1 = true ∧ seededWorld.isRabbit 0 2 = true
          ∧ seededWorld.isRabbit 0 3 = true)
      ∧ ∃ w, tick 5 seededWorld = some w
          ∧ (w.actor 0 3 = some (.Wolf 0 2 (f32sub f32two c02) 0 false) ∧ ¬ CoordInv w) := by
  refine ⟨by decide!, by decide!, by decide!, ?_⟩
  apply exists_of_any
  decide!

theorem isRabbit_not_carrot (w : World) (i j : Int)
    (h : w.isRabbit i j = true ∨ w.isWolf i j = true) :
    w.field i j ≠ none ∧ w.isCarrot i j = false := by
  unfold World.isRabbit World.isWolf World.actor at h
  unfold World.isCarrot World.actor
  cases hf : w.field i j with
  | none => simp [hf] at h
  | some p =>
    simp only [hf] at h ⊢
    cases hp : w.heap p with
    | none => simp [hp] at h
    | some c => cases c <;> simp [hp, Creature.isRabbit, Creature.isWolf, Creature.isCarrot] at h ⊢

/-- The act of a `Rabbit` held at its stored coordinates: a destination that holds a
`Rabbit` or a `Wolf` blocks the move, and no act changes a cell that held another `Rabbit`
or a `Wolf`. -/
theorem prey_blocked_frame (w : World) (this : Nat) (x y h : Int)
    (hheap : w.heap this = some (.Rabbit x y h)) (hcell : w.field x y = some this) :
    (0 < h →
        (w.isRabbit (Rabbit.dest w this).1 (Rabbit.dest w this).2 = true
          ∨ w.isWolf (Rabbit.dest w this).1 (Rabbit.dest w this).2 = true) →
        (Rabbit.moveAndAct w this).field = w.field
          ∧ (Rabbit.moveAndAct w this).heap this = some (.Rabbit x y (f32sub h c02))
          ∧ ∀ q, q ≠ this → (Rabbit.moveAndAct w this).heap q = w.heap q)
      ∧ ∀ (r c : Int) (q : Nat), w.field r c = some q → q ≠ this →
          (w.isRabbit r c = true ∨ w.isWolf r c = true) →
          (Rabbit.moveAndAct w this).field r c = some q
            ∧ (Rabbit.moveAndAct w this).heap q = w.heap q := by
  have hd : Rabbit.dest w this = (wrap x (uniformInt (-1) 1 (w.rabbitRng 0)),
      wrap y (uniformInt (-1) 1 (w.rabbitRng 1))) := by
    simp [Rabbit.dest, hheap, Creature.x, Creature.y]
  rw [hd]
  simp only [Rabbit.moveAndAct, hheap]
  generalize wrap x (uniformInt (-1) 1 (w.rabbitRng 0)) = nx
  generalize wrap y (uniformInt (-1) 1 (w.rabbitRng 1)) = ny
  constructor
  · intro hpos hblock
    have hnp : ¬ h ≤ 0 := by omega
    obtain ⟨h1, h2⟩ := isRabbit_not_carrot w nx ny hblock
    have h2' : World.isCarrot { w with rabbitRng := fun n => w.rabbitRng (n + 2) } nx ny
        = false := h2
    simp only [hnp, h1, h2', if_false, false_or, World.setHeap, Bool.false_eq_true]
    refine ⟨trivial, by simp, ?_⟩
    intro q hq
    simp [hq]
  · intro r c q hq hne hkind
    obtain ⟨h1, h2⟩ := isRabbit_not_carrot w r c hkind
    have hxy : ¬ (r = x ∧ c = y) := by
      rintro ⟨rfl, rfl⟩
      rw [hcell] at hq
      exact hne (Option.some.inj hq).symm
    by_cases hneg : h ≤ 0
    · simp [hneg, World.setCell, Grid.put, hxy, hq]
    · by_cases hmove : w.field nx ny = none ∨ w.isCarrot nx ny = true
      · have hmove' : World.field { w with rabbitRng := fun n => w.rabbitRng (n + 2) } nx ny
            = none ∨ World.isCarrot { w with rabbitRng := fun n => w.rabbitRng (n + 2) } nx ny
              = true := hmove
        have hn : ¬ (r = nx ∧ c = ny) := by
          rintro ⟨rfl, rfl⟩
          rcases hmove with h3 | h3
          · exact h1 h3
          · rw [h2] at h3; cases h3
        simp only [hneg, hmove', if_false, if_true, World.setHeap,
          World.setCell, Grid.put, hxy, hn]
        simp [hq, hne]
      · have hmove' : ¬ (World.field { w with rabbitRng := fun n => w.rabbitRng (n + 2) } nx ny
            = none ∨ World.isCarrot { w with rabbitRng := fun n => w.rabbitRng (n + 2) } nx ny
              = true) := hmove
        simp only [hneg, hmove', if_false, World.setHeap]
        simp [hq, hne]

/-- C10 (as amended). Blocked Prey: for a `Rabbit` held at its stored coordinates `(x, y)`,
(1) if its hunger is positive and the destination drawn for its act holds a `Rabbit`
(possibly the actor itself, when `dx = dy = 0`) or a `Wolf`, the act leaves the grid
unchanged, leaves every other object unchanged and replaces the hunger `h` by
`f32sub h c02`, the binary32 result of `hunger -= 0.2`; (2) whatever its hunger and its
draw, a cell that held a `Rabbit` other than the actor, or a `Wolf`, holds the same,
unchanged object after the act; (3) `f32sub h c02` is within `2^(L-24) + 2^(L-54)` units
of `2^-149` of `h - c02` whenever `|h - c02| < 2^L`, `L ≥ 54`. -/
theorem prey_blocked (w : World) (this : Nat) (x y h : Int)
    (hheap : w.heap this = some (.Rabbit x y h)) (hcell : w.field x y = some this) :
    (0 < h →
        (w.isRabbit (Rabbit.dest w this).1 (Rabbit.dest w this).2 = true
          ∨ w.isWolf (Rabbit.dest w this).1 (Rabbit.dest w this).2 = true) →
        (Rabbit.moveAndAct w this).field = w.field
          ∧ (Rabbit.moveAndAct w this).heap this = some (.Rabbit x y (f32sub h c02))
          ∧ ∀ q, q ≠ this → (Rabbit.moveAndAct w this).heap q = w.heap q)
      ∧ (∀ (r c : Int) (q : Nat), w.field r c = some q → q ≠ this →
          (w.isRabbit r c = true ∨ w.isWolf r c = true) →
          (Rabbit.moveAndAct w this).field r c = some q
            ∧ (Rabbit.moveAndAct w this).heap q = w.heap q)
      ∧ ∀ L : Nat, 54 ≤ L → -(2 ^ L : Int) < h - c02 → h - c02 < 2 ^ L →
          h - c02 - (2 ^ (L - 24) + 2 ^ (L - 54)) ≤ f32sub h c02
            ∧ f32sub h c02 ≤ h - c02 + (2 ^ (L - 24) + 2 ^ (L - 54)) :=
  ⟨(prey_blocked_frame w this x y h hheap hcell).1,
    (prey_blocked_frame w this x y h hheap hcell).2,
    fun L hL h1 h2 => f32sub_error h c02 L hL h1 h2⟩

/-- Witness of `prey_blocked`: the `Rabbit` of `preyWorld` draws `dx = dy = 0`, so its
destination is its own cell; its hunger `1.0` becomes `f32sub f32one c02`, which is within
`2^125 + 2^95` units of `f32one - c02`. -/
theorem prey_blocked_witness :
    preyWorld.heap 0 = some (.Rabbit 0 0 f32one) ∧ preyWorld.field 0 0 = some 0
      ∧ preyWorld.isRabbit (Rabbit.dest preyWorld 0).1 (Rabbit.dest preyWorld 0).2 = true
      ∧ (Rabbit.moveAndAct preyWorld 0).field = preyWorld.field
      ∧ (Rabbit.moveAndAct preyWorld 0).heap 0 = some (.Rabbit 0 0 (f32sub f32one c02))
      ∧ (-(2 ^ 149 : Int) < f32one - c02 ∧ f32one - c02 < 2 ^ 149)
      ∧ (f32one - c02 - (2 ^ (149 - 24) + 2 ^ (149 - 54)) ≤ f32sub f32one c02
        ∧ f32sub f32one c02 ≤ f32one - c02 + (2 ^ (149 - 24) + 2 ^ (149 - 54))) :=
  ⟨rfl, rfl, by decide!,
    ((prey_blocked preyWorld 0 0 0 f32one rfl rfl).1 (by decide!) (Or.inl (by decide!))).1,
    ((prey_blocked preyWorld 0 0 0 f32one rfl rfl).1 (by decide!) (Or.inl (by decide!))).2.1,
    ⟨by decide!, by decide!⟩,
    (prey_blocked preyWorld 0 0 0 f32one rfl rfl).2.2 149 (by decide) (by decide!)
      (by decide!)⟩

/-- C10 (counterexample). (1) The `Rabbit` of `preyWorld` has hunger `1.0`, sits at its
stored coordinates and draws its own cell; its act leaves it with hunger
`f32sub f32one c02` (about `0.80000001`): the decrease is smaller than the `double` `0.2`
and smaller than one fifth, so the hunger has not decreased by exactly `0.2`.
(2) In the third tick from the seeding `straySeed`, when the Acting pass reaches cell
`(1, 2)`, that cell holds a `Rabbit` (object 31) with positive hunger whose stored
coordinates are `(0, 2)`, and cell `(0, 2)` holds another `Rabbit` (object 40); the act of
object 31 draws `dx = 0`, `dy = -1` and empties cell `(0, 2)`. -/
theorem prey_act_not_exact_nor_framed :
    (preyWorld.heap 0 = some (.Rabbit 0 0 f32one) ∧ preyWorld.field 0 0 = some 0
        ∧ 0 < f32one ∧ Rabbit.dest preyWorld 0 = (0, 0) ∧ preyWorld.isRabbit 0 0 = true
        ∧ (Rabbit.moveAndAct preyWorld 0).heap 0 = some (.Rabbit 0 0 (f32sub f32one c02))
        ∧ f32one - f32sub f32one c02 < c02
        ∧ 5 * (f32one - f32sub f32one c02) < f32one)
      ∧ cells.take 13 = cells.take 12 ++ [(1, 2)]
      ∧ ∃ v, strayWorld = some v
          ∧ (v.field 1 2 = some 31 ∧ v.heap 31 = some (.Rabbit 0 2 (hungerAfter 2))
            ∧ 0 < hungerAfter 2
            ∧ v.field 0 2 = some 40 ∧ v.heap 40 = some (.Rabbit 0 2 (hungerAfter 1))
            ∧ Rabbit.dest v 31 = (0, 1)
            ∧ (Rabbit.moveAndAct v 31).field 0 2 = none
            ∧ (actCell v (1, 2)).field 0 2 = none
            ∧ (actCell v (1, 2)).field 0 1 = some 40
            ∧ (actCell v (1, 2)).field 1 2 = some 31) := by
  refine ⟨?_, by decide!, ?_⟩
  · refine ⟨?_, ?_, ?_, ?_, ?_, ?_, ?_, ?_⟩ <;> decide!
  · apply exists_of_any
    decide!

theorem carrot_or_wolf_not_rabbit (w : World) (i j : Int)
    (h : w.isCarrot i j = true ∨ w.isWolf i j = true) :
    w.field i j ≠ none ∧ w.isRabbit i j = false := by
  unfold World.isCarrot World.isWolf World.actor at h
  unfold World.isRabbit World.actor
  cases hf : w.field i j with
  | none => simp [hf] at h
  | some p =>
    simp only [hf] at h ⊢
    cases hp : w.heap p with
    | none => simp [hp] at h
    | some c => cases c <;> simp [hp, Creature.isRabbit, Creature.isWolf, Creature.isCarrot] at h ⊢

theorem attempt_blocked (w : World) (this : Nat) (r x y h e : Int) (f : Bool)
    (hheap : w.heap this = some (.Wolf x y h e f))
    (hb : w.isCarrot (Wolf.dest w x y r 0).1 (Wolf.dest w x y r 0).2 = true
      ∨ w.isWolf (Wolf.dest w x y r 0).1 (Wolf.dest w x y r 0).2 = true) :
    Wolf.attempt w this r = ({ w with wolfRng := fun n => w.wolfRng (n + 2) }, false) := by
  simp only [Wolf.dest, Nat.mul_zero, Nat.zero_add] at hb
  obtain ⟨h1, h2⟩ := carrot_or_wolf_not_rabbit w _ _ hb
  have h2' : World.isRabbit { w with wolfRng := fun n => w.wolfRng (n + 2) }
      (wrap x (uniformInt (-r) r (w.wolfRng 0))) (wrap y (uniformInt (-r) r (w.wolfRng 1)))
        = false := h2
  simp only [Wolf.attempt, hheap]
  split
  · rfl
  · simp [h1, h2']

theorem attempts_blocked (n : Nat) : ∀ (w : World) (this : Nat) (r x y h e : Int) (f : Bool),
    w.heap this = some (.Wolf x y h e f) →
    (∀ k, k < n → w.isCarrot (Wolf.dest w x y r k).1 (Wolf.dest w x y r k).2 = true
      ∨ w.isWolf (Wolf.dest w x y r k).1 (Wolf.dest w x y r k).2 = true) →
    (Wolf.attempts n w this r).field = w.field ∧ (Wolf.attempts n w this r).heap = w.heap
      ∧ (Wolf.attempts n w this r).next = w.next := by
  induction n with
  | zero => intro w this r x y h e f _ _; exact ⟨rfl, rfl, rfl⟩
  | succ n ih =>
    intro w this r x y h e f hheap hb
    have h0 := attempt_blocked w this r x y h e f hheap (hb 0 (by omega))
    simp only [Wolf.attempts, h0]
    have := ih { w with wolfRng := fun n => w.wolfRng (n + 2) } this r x y h e f hheap
      (fun k hk => by
        have := hb (k + 1) (by omega)
        simpa [Wolf.dest, World.isCarrot, World.isWolf, World.actor, Nat.mul_add, Nat.add_assoc,
          Nat.add_comm, Nat.add_left_comm] using this)
    exact this

/-- The act of a `Wolf` all of whose 5 trials draw a destination that holds a `Carrot` or
a `Wolf` changes nothing but the hunger of the `Wolf`. -/
theorem predator_blocked_frame (w : World) (this : Nat) (x y h e : Int) (f : Bool)
    (hheap : w.heap this = some (.Wolf x y h e f)) (hpos : 0 < h)
    (hb : ∀ k, k < 5 →
      w.isCarrot (Wolf.dest w x y (if h < c05 then 2 else 1) k).1
          (Wolf.dest w x y (if h < c05 then 2 else 1) k).2 = true
        ∨ w.isWolf (Wolf.dest w x y (if h < c05 then 2 else 1) k).1
          (Wolf.dest w x y (if h < c05 then 2 else 1) k).2 = true) :
    (Wolf.moveAndAct w this).field = w.field
      ∧ (Wolf.moveAndAct w this).heap this = some (.Wolf x y (f32sub h c02) e f)
      ∧ (∀ q, q ≠ this → (Wolf.moveAndAct w this).heap q = w.heap q)
      ∧ (Wolf.moveAndAct w this).next = w.next := by
  have hnp : ¬ h ≤ 0 := by omega
  obtain ⟨h1, h2, h3⟩ := attempts_blocked 5 w this _ x y h e f hheap hb
  have h4 : (Wolf.attempts 5 w this (if h < c05 then 2 else 1)).heap this
      = some (.Wolf x y h e f) := by rw [h2]; exact hheap
  simp only [Wolf.moveAndAct, hheap, hnp, if_false, h4, World.setHeap]
  refine ⟨h1, by simp, ?_, h3⟩
  intro q hq
  simp [hq, h2]

/-- C9 (as amended). Blocked Predator: for a `Wolf` with positive hunger at its stored
coordinates `(x, y)`, if each of the 5 trials of its act draws a destination that holds a
`Carrot` or a `Wolf`, then the act leaves every grid cell unchanged, creates no object,
leaves every other object unchanged, keeps `eatenHares` and `hasReproduced`, and replaces
the hunger `h` by `f32sub h c02`, the binary32 result of `hunger -= 0.2`, which is within
`2^(L-24) + 2^(L-54)` units of `2^-149` of `h - c02` whenever `|h - c02| < 2^L`,
`L ≥ 54`. -/
theorem predator_blocked (w : World) (this : Nat) (x y h e : Int) (f : Bool)
    (hheap : w.heap this = some (.Wolf x y h e f)) (_hcell : w.field x y = some this)
    (hpos : 0 < h)
    (hb : ∀ k, k < 5 →
      w.isCarrot (Wolf.dest w x y (if h < c05 then 2 else 1) k).1
          (Wolf.dest w x y (if h < c05 then 2 else 1) k).2 = true
        ∨ w.isWolf (Wolf.dest w x y (if h < c05 then 2 else 1) k).1
          (Wolf.dest w x y (if h < c05 then 2 else 1) k).2 = true) :
    (Wolf.moveAndAct w this).field = w.field
      ∧ (Wolf.moveAndAct w this).heap this = some (.Wolf x y (f32sub h c02) e f)
      ∧ (∀ q, q ≠ this → (Wolf.moveAndAct w this).heap q = w.heap q)
      ∧ (Wolf.moveAndAct w this).next = w.next
      ∧ ∀ L : Nat, 54 ≤ L → -(2 ^ L : Int) < h - c02 → h - c02 < 2 ^ L →
          h - c02 - (2 ^ (L - 24) + 2 ^ (L - 54)) ≤ f32sub h c02
            ∧ f32sub h c02 ≤ h - c02 + (2 ^ (L - 24) + 2 ^ (L - 54)) :=
  ⟨(predator_blocked_frame w this x y h e f hheap hpos hb).1,
    (predator_blocked_frame w this x y h e f hheap hpos hb).2.1,
    (predator_blocked_frame w this x y h e f hheap hpos hb).2.2.1,
    (predator_blocked_frame w this x y h e f hheap hpos hb).2.2.2,
    fun L hL h1 h2 => f32sub_error h c02 L hL h1 h2⟩

/-- C9 (counterexample). The `Wolf` of `blockedWolfWorld` has hunger `2.0`, sits at its
stored coordinates and draws the `Carrot` at `(0, 1)` in each of its 5 trials; its act
leaves it with hunger `f32sub f32two c02` (about `1.79999995`): the decrease is larger
than the `double` `0.2` and larger than one fifth, so the hunger has not decreased by
exactly `0.2`. -/
theorem predator_blocked_not_exact :
    blockedWolfWorld.heap 0 = some (.Wolf 0 0 f32two 0 false)
      ∧ blockedWolfWorld.field 0 0 = some 0 ∧ 0 < f32two ∧ ¬ (f32two < c05)
      ∧ (∀ k, k < 5 →
          blockedWolfWorld.isCarrot (Wolf.dest blockedWolfWorld 0 0 1 k).1
            (Wolf.dest blockedWolfWorld 0 0 1 k).2 = true)
      ∧ (Wolf.moveAndAct blockedWolfWorld 0).heap 0
          = some (.Wolf 0 0 (f32sub f32two c02) 0 false)
      ∧ c02 < f32two - f32sub f32two c02
      ∧ f32one < 5 * (f32two - f32sub f32two c02) := by
  refine ⟨?_, ?_, ?_, ?_, ?_, ?_, ?_, ?_⟩ <;> decide!

/-- Witness of `predator_blocked`: the `Wolf` of `blockedWolfWorld`, whose five trials all
draw the `Carrot` at `(0, 1)`; its hunger `2.0` becomes `f32sub f32two c02`, which is
within `2^126 + 2^96` units of `f32two - c02`. -/
theorem predator_blocked_witness :
    blockedWolfWorld.heap 0 = some (.Wolf 0 0 f32two 0 false)
      ∧ blockedWolfWorld.isCarrot 0 1 = true
      ∧ (Wolf.moveAndAct blockedWolfWorld 0).field = blockedWolfWorld.field
      ∧ (Wolf.moveAndAct blockedWolfWorld 0).heap 0
          = some (.Wolf 0 0 (f32sub f32two c02) 0 false)
      ∧ (-(2 ^ 150 : Int) < f32two - c02 ∧ f32two - c02 < 2 ^ 150)
      ∧ (f32two - c02 - (2 ^ (150 - 24) + 2 ^ (150 - 54)) ≤ f32sub f32two c02
        ∧ f32sub f32two c02 ≤ f32two - c02 + (2 ^ (150 - 24) + 2 ^ (150 - 54))) :=
  ⟨rfl, by decide!,
    (predator_blocked blockedWolfWorld 0 0 0 f32two 0 false rfl rfl (by decide!) (by decide!)).1,
    (predator_blocked blockedWolfWorld 0 0 0 f32two 0 false rfl rfl (by decide!)
      (by decide!)).2.1,
    ⟨by decide!, by decide!⟩,
    (predator_blocked blockedWolfWorld 0 0 0 f32two 0 false rfl rfl (by decide!)
      (by decide!)).2.2.2.2 150 (by decide) (by decide!) (by decide!)⟩

theorem empty_or_rabbit_not_wolf (w : World) (i j : Int)
    (h : w.field i j = none ∨ w.isRabbit i j = true) : w.isWolf i j = false := by
  unfold World.isRabbit World.actor at h
  unfold World.isWolf World.actor
  cases hf : w.field i j with
  | none => rfl
  | some p =>
    simp only [hf] at h ⊢
    cases hp : w.heap p with
    | none => rfl
    | some c => cases c <;> simp [hp, Creature.isRabbit, Creature.isWolf] at h ⊢

theorem attempt_flagged (w : World) (this : Nat) (r x y h e : Int)
    (hheap : w.heap this = some (.Wolf x y h e true)) :
    ((Wolf.attempt w this r).2 = false ∧ SameGrid w (Wolf.attempt w this r).1)
      ∨ ((Wolf.attempt w this r).2 = true ∧ MovedTo w (Wolf.attempt w this r).1 this x y) := by
  simp only [Wolf.attempt, hheap]
  split
  · exact Or.inl ⟨rfl, rfl, rfl, rfl⟩
  · split
    · rename_i hmove
      have hnw : w.isWolf (wrap x (uniformInt (-r) r (w.wolfRng 0)))
          (wrap y (uniformInt (-r) r (w.wolfRng 1))) = false :=
        empty_or_rabbit_not_wolf w _ _ hmove
      split
      · simp only [Bool.true_eq_false, and_false, if_false]
        exact Or.inr ⟨trivial, _, _, _, _, hnw, rfl, rfl, rfl⟩
      · exact Or.inr ⟨rfl, _, _, _, _, hnw, rfl, rfl, rfl⟩
    · exact Or.inl ⟨rfl, rfl, rfl, rfl⟩

theorem attempts_flagged (n : Nat) : ∀ (w : World) (this : Nat) (r x y h e : Int),
    w.heap this = some (.Wolf x y h e true) →
    SameGrid w (Wolf.attempts n w this r) ∨ MovedTo w (Wolf.attempts n w this r) this x y := by
  induction n with
  | zero => intro w this r x y h e _; exact Or.inl ⟨rfl, rfl, rfl⟩
  | succ n ih =>
    intro w this r x y h e hheap
    rcases attempt_flagged w this r x y h e hheap with ⟨hb, hs⟩ | ⟨hb, hm⟩
    · have e1 : Wolf.attempt w this r = ((Wolf.attempt w this r).1, false) := by
        rw [← hb]
      have hstep : Wolf.attempts (n + 1) w this r
          = Wolf.attempts n (Wolf.attempt w this r).1 this r := by
        rw [Wolf.attempts, e1]
      rw [hstep]
      obtain ⟨s1, s2, s3⟩ := hs
      rcases ih (Wolf.attempt w this r).1 this r x y h e (by rw [s2]; exact hheap) with
        ⟨t1, t2, t3⟩ | ⟨nx, ny, h1, e2, m1, m2, m3, m4⟩
      · exact Or.inl ⟨t1.trans s1, t2.trans s2, t3.trans s3⟩
      · refine Or.inr ⟨nx, ny, h1, e2, ?_, ?_, ?_, m4.trans s3⟩
        · simpa [World.isWolf, World.actor, s1, s2] using m1
        · rw [m2, s1]
        · rw [m3, s2]
    · have e1 : Wolf.attempt w this r = ((Wolf.attempt w this r).1, true) := by
        rw [← hb]
      have hstep : Wolf.attempts (n + 1) w this r = (Wolf.attempt w this r).1 := by
        rw [Wolf.attempts, e1]
      rw [hstep]
      exact Or.inr hm

theorem countP_set_true {α : Type} (l : List α) (hnd : l.Nodup) (P Q : α → Bool) (a : α)
    (ha : a ∈ l) (hPa : P a = false) (hQa : Q a = true) (hrest : ∀ c, c ≠ a → Q c = P c) :
    l.countP Q = l.countP P + 1 := by
  induction l with
  | nil => cases ha
  | cons c t ih =>
    rw [List.nodup_cons] at hnd
    by_cases hca : c = a
    · subst hca
      have ht : t.countP Q = t.countP P :=
        List.countP_congr fun d hd => by
          have : d ≠ c := fun h => hnd.1 (h ▸ hd)
          rw [hrest d this]
      rw [List.countP_cons, List.countP_cons, ht]
      simp [hPa, hQa]
    · have hat : a ∈ t := by
        rcases List.mem_cons.mp ha with h | h
        · exact absurd h.symm hca
        · exact h
      rw [List.countP_cons, List.countP_cons, ih hnd.2 hat, hrest c hca]
      omega

theorem countP_move_le {α : Type} [DecidableEq α] (l : List α) (hnd : l.Nodup)
    (P Q : α → Bool) (a b : α)
    (ha : a ∈ l) (hrest : ∀ c, c ≠ a → c ≠ b → Q c = P c) (hQa : Q a = false)
    (hQb : b ≠ a → Q b = P a) (hPb : P b = false) :
    l.countP Q ≤ l.countP P := by
  by_cases hPa : P a = true
  · -- the intermediate predicate: `P` with `a` cleared
    have h1 : l.countP P = l.countP (fun c => P c && !decide (c = a)) + 1 := by
      apply countP_set_true l hnd _ _ a ha
      · simp
      · exact hPa
      · intro c hc; simp [hc]
    rw [h1]
    by_cases hba : b = a
    · have : l.countP Q ≤ l.countP (fun c => P c && !decide (c = a)) := by
        apply List.countP_mono_left
        intro c _ hQc
        have hca : c ≠ a := fun h => by rw [h, hQa] at hQc; cases hQc
        have := hrest c hca (hba ▸ hca)
        simp [← this, hQc, hca]
      omega
    · by_cases hbl : b ∈ l
      · have : l.countP Q = l.countP (fun c => P c && !decide (c = a)) + 1 := by
          apply countP_set_true l hnd _ _ b hbl
          · simp [hPb]
          · rw [hQb hba]; exact hPa
          · intro c hc
            by_cases hca : c = a
            · subst hca; simp [hQa]
            · simp [hca, hrest c hca hc]
        omega
      · have : l.countP Q = l.countP (fun c => P c && !decide (c = a)) := by
          apply List.countP_congr
          intro c hc
          have hcb : c ≠ b := fun h => hbl (h ▸ hc)
          by_cases hca : c = a
          · subst hca; simp [hQa]
          · simp [hca, hrest c hca hcb]
        omega
  · apply List.countP_mono_left
    intro c _ hQc
    have hca : c ≠ a := fun h => by rw [h, hQa] at hQc; cases hQc
    by_cases hcb : c = b
    · subst hcb; rw [hQb hca] at hQc; exact absurd hQc hPa
    · rw [← hrest c hca hcb]; exact hQc

theorem isWolf_eq_ptrIs (w : World) (i j : Int) :
    w.isWolf i j = ptrIs Creature.isWolf w.heap (w.field i j) := by
  unfold World.isWolf World.actor ptrIs
  cases w.field i j with
  | none => rfl
  | some p => cases w.heap p <;> rfl

theorem isRabbit_eq_ptrIs (w : World) (i j : Int) :
    w.isRabbit i j = ptrIs Creature.isRabbit w.heap (w.field i j) := by
  unfold World.isRabbit World.actor ptrIs
  cases w.field i j with
  | none => rfl
  | some p => cases w.heap p <;> rfl

theorem ptrIs_setHeap_wolf (heap : Nat → Option Creature) (this : Nat)
    (x y h e : Int) (f : Bool) (x1 y1 h1 e1 : Int) (f1 : Bool)
    (hheap : heap this = some (.Wolf x y h e f)) (v : Option Nat) :
    ptrIs Creature.isWolf (fun q => if q = this then some (.Wolf x1 y1 h1 e1 f1) else heap q) v
      = ptrIs Creature.isWolf heap v := by
  cases v with
  | none => rfl
  | some p =>
    unfold ptrIs
    by_cases hp : p = this
    · subst hp; simp [hheap, Creature.isWolf]
    · simp [hp]

theorem mem_cells (i j : Int) : (i, j) ∈ cells ↔ (0 ≤ i ∧ i < 10) ∧ (0 ≤ j ∧ j < 10) := by
  simp only [cells, axis, List.mem_flatMap, List.mem_map, List.mem_cons, List.mem_singleton,
    Prod.mk.injEq, List.not_mem_nil, or_false]
  constructor
  · rintro ⟨a, ha, b, hb, rfl, rfl⟩
    omega
  · rintro ⟨hi, hj⟩
    exact ⟨i, by omega, j, by omega, rfl, rfl⟩

theorem cells_nodup : cells.Nodup := by decide!

theorem countWolves_move_le (w w1 : World) (x y nx ny : Int) (hin : (x, y) ∈ cells)
    (hkind : ∀ v, ptrIs Creature.isWolf w1.heap v = ptrIs Creature.isWolf w.heap v)
    (hfield : w1.field = (w.field.put nx ny (w.field x y)).put x y none)
    (hdest : w.isWolf nx ny = false) :
    countWolves w1 ≤ countWolves w := by
  unfold countWolves
  have := countP_move_le cells cells_nodup (fun c => w.isWolf c.1 c.2)
    (fun c => w1.isWolf c.1 c.2) (x, y) (nx, ny) hin ?_ ?_ ?_ hdest
  · exact_mod_cast this
  · rintro ⟨a, b⟩ h1 h2
    have h1' : ¬ (a = x ∧ b = y) := fun h => h1 (by rw [h.1, h.2])
    have h2' : ¬ (a = nx ∧ b = ny) := fun h => h2 (by rw [h.1, h.2])
    simp only [isWolf_eq_ptrIs, hkind, hfield, Grid.put, h1', h2', if_false]
  · simp only [isWolf_eq_ptrIs, hkind, hfield, Grid.put, and_self, if_true]
    rfl
  · intro hne
    have hne' : ¬ (nx = x ∧ ny = y) := fun h => hne (by rw [h.1, h.2])
    simp only [isWolf_eq_ptrIs, hkind, hfield, Grid.put, hne', and_self, if_true, if_false]

theorem countWolves_mono (w w1 : World)
    (h : ∀ c ∈ cells, w1.isWolf c.1 c.2 = true → w.isWolf c.1 c.2 = true) :
    countWolves w1 ≤ countWolves w := by
  unfold countWolves
  exact_mod_cast List.countP_mono_left h

theorem wolf_act_eq (w : World) (this : Nat) (x y h e : Int) (f : Bool) (x1 y1 h1 e1 : Int)
    (f1 : Bool) (hheap : w.heap this = some (.Wolf x y h e f)) (hpos : ¬ h ≤ 0)
    (h4 : (Wolf.attempts 5 w this (if h < c05 then 2 else 1)).heap this
      = some (.Wolf x1 y1 h1 e1 f1)) :
    Wolf.moveAndAct w this = (Wolf.attempts 5 w this (if h < c05 then 2 else 1)).setHeap this
      (.Wolf x1 y1 (f32sub h1 c02) e1 f1) := by
  simp only [Wolf.moveAndAct, hheap, hpos, if_false, h4]

/-- C8. Reproduction is one-shot: for a `Wolf` whose `hasReproduced` flag is set, with
stored coordinates `(x, y)` on the grid, whatever its hunger, its `eatenHares` and its
draws: the act creates no object and changes no other object, the number of `Wolf` cells
does not increase, the flag is still set afterwards, and if the act moved the `Wolf`
(its stored coordinates changed) then the origin `(x, y)` is empty and the destination
holds what the origin held. -/
theorem reproduction_one_shot (w : World) (this : Nat) (x y h e : Int)
    (hheap : w.heap this = some (.Wolf x y h e true)) (hin : (x, y) ∈ cells) :
    (Wolf.moveAndAct w this).next = w.next
      ∧ (∀ q, q ≠ this → (Wolf.moveAndAct w this).heap q = w.heap q)
      ∧ countWolves (Wolf.moveAndAct w this) ≤ countWolves w
      ∧ ∃ x1 y1 h1 e1, (Wolf.moveAndAct w this).heap this = some (.Wolf x1 y1 h1 e1 true)
          ∧ ((x1, y1) ≠ (x, y) → (Wolf.moveAndAct w this).field x y = none
              ∧ (Wolf.moveAndAct w this).field x1 y1 = w.field x y) := by
  by_cases hneg : h ≤ 0
  · have hw : Wolf.moveAndAct w this = w.setCell x y none := by
      simp [Wolf.moveAndAct, hheap, hneg]
    rw [hw]
    refine ⟨rfl, fun _ _ => rfl, ?_, x, y, h, e, hheap, fun hne => absurd rfl hne⟩
    apply countWolves_mono
    rintro ⟨a, b⟩ _ hc
    simp only [isWolf_eq_ptrIs, World.setCell, Grid.put] at hc ⊢
    split at hc
    · cases hc
    · exact hc
  · rcases attempts_flagged 5 w this (if h < c05 then 2 else 1) x y h e hheap with
      ⟨s1, s2, s3⟩ | ⟨nx, ny, h1, e1, m1, m2, m3, m4⟩
    · have h4 : (Wolf.attempts 5 w this (if h < c05 then 2 else 1)).heap this
          = some (.Wolf x y h e true) := by rw [s2]; exact hheap
      rw [wolf_act_eq w this x y h e true x y h e true hheap hneg h4]
      refine ⟨s3, ?_, ?_, x, y, f32sub h c02, e, by simp [World.setHeap],
        fun hne => absurd rfl hne⟩
      · intro q hq; simp [World.setHeap, hq, s2]
      · apply countWolves_mono
        rintro ⟨a, b⟩ _ hc
        simp only [isWolf_eq_ptrIs, World.setHeap, s1, s2] at hc ⊢
        rw [ptrIs_setHeap_wolf w.heap this x y h e true _ _ _ _ _ hheap] at hc
        exact hc
    · have h4 : (Wolf.attempts 5 w this (if h < c05 then 2 else 1)).heap this
          = some (.Wolf nx ny h1 e1 true) := by rw [m3]; simp
      rw [wolf_act_eq w this x y h e true nx ny h1 e1 true hheap hneg h4]
      refine ⟨m4, ?_, ?_, nx, ny, f32sub h1 c02, e1, by simp [World.setHeap], ?_⟩
      · intro q hq; simp [World.setHeap, hq, m3]
      · refine countWolves_move_le w _ x y nx ny hin ?_ m2 m1
        intro v
        simp only [World.setHeap, m3]
        cases v with
        | none => rfl
        | some p =>
          unfold ptrIs
          by_cases hp : p = this
          · subst hp; simp [hheap, Creature.isWolf]
          · simp [hp]
      · intro hne
        have hne' : ¬ (nx = x ∧ ny = y) := fun h => hne (by rw [h.1, h.2])
        simp [World.setHeap, m2, Grid.put, hne']

/-- Witness of `reproduction_one_shot`: the flagged `Wolf` of `flaggedWolfWorld` eats the
`Rabbit` at `(0, 1)`. -/
theorem reproduction_one_shot_witness :
    flaggedWolfWorld.heap 0 = some (.Wolf 0 0 f32two 3 true) ∧ ((0, 0) : Int × Int) ∈ cells
      ∧ (Wolf.moveAndAct flaggedWolfWorld 0).next = flaggedWolfWorld.next
      ∧ countWolves (Wolf.moveAndAct flaggedWolfWorld 0) ≤ countWolves flaggedWolfWorld :=
  ⟨rfl, by decide!,
    (reproduction_one_shot flaggedWolfWorld 0 0 0 f32two 3 rfl (by decide!)).1,
    (reproduction_one_shot flaggedWolfWorld 0 0 0 f32two 3 rfl (by decide!)).2.2.1⟩

theorem fresh_place (w : World) (x y : Int) (c : Creature) (hf : w.Fresh) :
    (w.place x y c).Fresh := by
  intro i j p hp
  simp only [World.place, World.alloc, World.setCell, Grid.put] at hp ⊢
  split at hp
  · cases hp; omega
  · have := hf i j p hp; omega

theorem ptrIs_place (k : Creature → Bool) (w : World) (x y : Int) (c : Creature)
    (hf : w.Fresh) (i j : Int) :
    ptrIs k (w.place x y c).heap ((w.place x y c).field i j)
      = if i = x ∧ j = y then k c else ptrIs k w.heap (w.field i j) := by
  simp only [World.place, World.alloc, World.setCell, Grid.put]
  split
  · simp [ptrIs]
  · cases hv : w.field i j with
    | none => rfl
    | some p =>
      have := hf i j p hv
      have hne : p ≠ w.next := by omega
      simp [ptrIs, hne]

theorem randCoord_bounds (raw : Nat) : 0 ≤ randCoord raw ∧ randCoord raw < 10 := by
  unfold randCoord FIELD_SIZE
  rw [Int.tmod_eq_emod (by omega) (by omega)]
  omega

theorem pick_mem_cells (w : World) : (w.pick.1.1, w.pick.1.2) ∈ cells := by
  rw [mem_cells]
  exact ⟨randCoord_bounds _, randCoord_bounds _⟩

theorem countRabbits_place_rabbit (w : World) (x y h : Int) (hf : w.Fresh)
    (hin : (x, y) ∈ cells) (he : w.field x y = none) :
    countRabbits (w.place x y (.Rabbit x y h)) = countRabbits w + 1 := by
  unfold countRabbits
  have := countP_set_true cells cells_nodup (fun c => w.isRabbit c.1 c.2)
    (fun c => (w.place x y (.Rabbit x y h)).isRabbit c.1 c.2) (x, y) hin ?_ ?_ ?_
  · exact_mod_cast this
  · simp [isRabbit_eq_ptrIs, he, ptrIs]
  · simp [isRabbit_eq_ptrIs, ptrIs_place _ _ _ _ _ hf, Creature.isRabbit]
  · rintro ⟨a, b⟩ hne
    have hne' : ¬ (a = x ∧ b = y) := fun h => hne (by rw [h.1, h.2])
    simp [isRabbit_eq_ptrIs, ptrIs_place _ _ _ _ _ hf, hne']

theorem countWolves_place_wolf (w : World) (x y : Int) (c : Creature) (hc : c.isWolf = true)
    (hf : w.Fresh) (hin : (x, y) ∈ cells) (he : w.field x y = none) :
    countWolves (w.place x y c) = countWolves w + 1 := by
  unfold countWolves
  have := countP_set_true cells cells_nodup (fun c => w.isWolf c.1 c.2)
    (fun d => (w.place x y c).isWolf d.1 d.2) (x, y) hin ?_ ?_ ?_
  · exact_mod_cast this
  · simp [isWolf_eq_ptrIs, he, ptrIs]
  · simp [isWolf_eq_ptrIs, ptrIs_place _ _ _ _ _ hf, hc]
  · rintro ⟨a, b⟩ hne
    have hne' : ¬ (a = x ∧ b = y) := fun h => hne (by rw [h.1, h.2])
    simp [isWolf_eq_ptrIs, ptrIs_place _ _ _ _ _ hf, hne']

theorem isRabbit_place (w : World) (x y : Int) (c : Creature) (hf : w.Fresh)
    (he : w.field x y = none) (i j : Int) (hr : w.isRabbit i j = true) :
    (w.place x y c).isRabbit i j = true ∧ (w.place x y c).field i j = w.field i j := by
  have hne : ¬ (i = x ∧ j = y) := by
    rintro ⟨rfl, rfl⟩
    simp [isRabbit_eq_ptrIs, he, ptrIs] at hr
  constructor
  · rw [isRabbit_eq_ptrIs, ptrIs_place _ _ _ _ _ hf, if_neg hne, ← isRabbit_eq_ptrIs]
    exact hr
  · simp [World.place, World.alloc, World.setCell, Grid.put, hne]

theorem rabbit_loop_floor (fuel : Nat) : ∀ (w : World) (count : Int) (w1 : World),
    w.Fresh → count ≤ countRabbits w → ensureRabbitBalance.loop fuel w count = some w1 →
    MIN_RABBITS ≤ countRabbits w1 ∧ w1.Fresh := by
  induction fuel with
  | zero =>
    intro w count w1 hf hc h
    simp only [ensureRabbitBalance.loop] at h
    split at h
    · cases h
    · cases h; exact ⟨by omega, hf⟩
  | succ n ih =>
    intro w count w1 hf hc h
    simp only [ensureRabbitBalance.loop] at h
    split at h
    · have hf1 : w.pick.2.Fresh := hf
      have hc1 : countRabbits w.pick.2 = countRabbits w := rfl
      split at h
      · rename_i hempty
        refine ih _ _ _ (fresh_place _ _ _ _ hf1) ?_ h
        rw [countRabbits_place_rabbit _ _ _ _ hf1 (pick_mem_cells w) hempty, hc1]
        omega
      · exact ih _ _ _ hf1 (by rw [hc1]; exact hc) h
    · cases h; exact ⟨by omega, hf⟩

theorem wolf_scan_spec (w : World) (hf : w.Fresh) : ∀ rows : List Int, (∀ i ∈ rows, i ∈ axis) →
    (ensureMinimumWolves.scan w rows).1.Fresh
      ∧ countWolves w + (ensureMinimumWolves.scan w rows).2
          ≤ countWolves (ensureMinimumWolves.scan w rows).1
      ∧ ∀ i j, w.isRabbit i j = true →
          (ensureMinimumWolves.scan w rows).1.isRabbit i j = true
            ∧ (ensureMinimumWolves.scan w rows).1.field i j = w.field i j := by
  intro rows
  induction rows with
  | nil => intro _; exact ⟨hf, by simp [ensureMinimumWolves.scan], fun i j h => ⟨h, rfl⟩⟩
  | cons i rest ih =>
    intro hrows
    have hi : i ∈ axis := hrows i (List.mem_cons_self _ _)
    have hi' : 0 ≤ i ∧ i < 10 := by
      simp only [axis, List.mem_cons, List.mem_singleton, List.not_mem_nil, or_false] at hi
      omega
    simp only [ensureMinimumWolves.scan]
    split
    · rename_i hempty
      refine ⟨fresh_place _ _ _ _ hf, ?_, fun a b h => isRabbit_place w _ _ _ hf hempty a b h⟩
      rw [countWolves_place_wolf w i 0 (.Wolf i 0 f32two 0 false) rfl hf ((mem_cells i 0).2 ⟨hi', by decide⟩) hempty]
    · split
      · rename_i hempty
        refine ⟨fresh_place _ _ _ _ hf, ?_, fun a b h => isRabbit_place w _ _ _ hf hempty a b h⟩
        rw [countWolves_place_wolf w i (FIELD_SIZE - 1)
          (.Wolf i (FIELD_SIZE - 1) f32two 0 false) rfl hf
          ((mem_cells i (FIELD_SIZE - 1)).2 ⟨hi', by decide⟩) hempty]
      · exact ih fun k hk => hrows k (List.mem_cons_of_mem _ hk)

theorem wolf_loop_floor (fuel : Nat) : ∀ (w : World) (count : Int) (w1 : World),
    w.Fresh → count ≤ countWolves w → ensureMinimumWolves.loop fuel w count = some w1 →
    MIN_WOLVES ≤ countWolves w1
      ∧ ∀ i j, w.isRabbit i j = true →
          w1.isRabbit i j = true ∧ w1.field i j = w.field i j := by
  induction fuel with
  | zero =>
    intro w count w1 _ hc h
    simp only [ensureMinimumWolves.loop] at h
    split at h
    · cases h
    · cases h; exact ⟨by omega, fun i j h => ⟨h, rfl⟩⟩
  | succ n ih =>
    intro w count w1 hf hc h
    simp only [ensureMinimumWolves.loop] at h
    split at h
    · obtain ⟨s1, s2, s3⟩ := wolf_scan_spec w hf axis (fun _ h => h)
      obtain ⟨t1, t2⟩ := ih _ _ _ s1 (by omega) h
      refine ⟨t1, fun i j hr => ?_⟩
      obtain ⟨u1, u2⟩ := s3 i j hr
      obtain ⟨v1, v2⟩ := t2 i j u1
      exact ⟨v1, v2.trans u2⟩
    · cases h; exact ⟨by omega, fun i j h => ⟨h, rfl⟩⟩

theorem fresh_addNewCarrots (w : World) (hf : w.Fresh) : (addNewCarrots w).Fresh := by
  have hstep : ∀ v : World, v.Fresh → (addNewCarrots.step v).Fresh := by
    intro v hv
    have hv1 : v.pick.2.Fresh := hv
    simp only [addNewCarrots.step]
    split
    · exact fresh_place _ _ _ _ hv1
    · exact hv1
  unfold addNewCarrots
  exact Function.Iterate.rec _ (fun v hv => hstep v hv) hf 5

theorem countRabbits_mono (w w1 : World)
    (h : ∀ i j, w.isRabbit i j = true → w1.isRabbit i j = true) :
    countRabbits w ≤ countRabbits w1 := by
  unfold countRabbits
  have := List.countP_mono_left fun (c : Int × Int) (_ : c ∈ cells)
    (hc : w.isRabbit c.1 c.2 = true) => h c.1 c.2 hc
  exact_mod_cast this

/-- C3. Population floors: from a state whose grid pointers were all allocated earlier,
whenever the maintenance phase (`addNewCarrots`, `ensureRabbitBalance`,
`ensureMinimumWolves`) terminates, the resulting grid holds at least `MIN_RABBITS = 5`
`Rabbit`s and at least `MIN_WOLVES = 5` `Wolf`s; the floor of `Rabbit`s already holds after
`ensureRabbitBalance`, and `ensureMinimumWolves` leaves every cell that holds a `Rabbit`
as it is. -/
theorem population_floors (fuel : Nat) (w w1 : World) (hfresh : w.Fresh)
    (hrun : maintenance fuel w = some w1) :
    MIN_RABBITS ≤ countRabbits w1 ∧ MIN_WOLVES ≤ countWolves w1
      ∧ ∃ w0, ensureRabbitBalance fuel (addNewCarrots w) = some w0
          ∧ ensureMinimumWolves fuel w0 = some w1
          ∧ MIN_RABBITS ≤ countRabbits w0
          ∧ ∀ i j, w0.isRabbit i j = true →
              w1.isRabbit i j = true ∧ w1.field i j = w0.field i j := by
  unfold maintenance at hrun
  cases h0 : ensureRabbitBalance fuel (addNewCarrots w) with
  | none => rw [h0] at hrun; cases hrun
  | some w0 =>
    rw [h0] at hrun
    have hrun1 : ensureMinimumWolves fuel w0 = some w1 := hrun
    obtain ⟨r1, r2⟩ := rabbit_loop_floor fuel _ _ _ (fresh_addNewCarrots w hfresh)
      (le_refl _) h0
    obtain ⟨t1, t2⟩ := wolf_loop_floor fuel _ _ _ r2 (le_refl _) hrun1
    refine ⟨?_, t1, w0, rfl, hrun1, r1, t2⟩
    have := countRabbits_mono w0 w1 fun i j h => (t2 i j h).1
    omega

theorem fresh_maintWorld : maintWorld.Fresh :=
  fresh_place _ _ _ _ (fresh_place _ _ _ _ (fresh_place _ _ _ _ fun _ _ _ h => nomatch h))

theorem maintWorld_terminates : (maintenance 6 maintWorld).isSome = true := by decide!

/-- Witness of `population_floors`: the maintenance phase of `maintWorld` terminates with
the two floors met. -/
theorem population_floors_witness :
    ∃ w1, maintenance 6 maintWorld = some w1
      ∧ MIN_RABBITS ≤ countRabbits w1 ∧ MIN_WOLVES ≤ countWolves w1 :=
  ⟨(maintenance 6 maintWorld).get maintWorld_terminates,
    (Option.some_get maintWorld_terminates).symm,
    (population_floors 6 maintWorld _ fresh_maintWorld
      (Option.some_get maintWorld_terminates).symm).1,
    (population_floors 6 maintWorld _ fresh_maintWorld
      (Option.some_get maintWorld_terminates).symm).2.1⟩

theorem picks_succ (w : World) (n : Nat) :
    w.picks (n + 1) = w.pick.1 :: w.pick.2.picks n := by
  simp only [World.picks, World.pick, List.range_succ_eq_map, List.map_cons, List.map_map]
  refine congrArg₂ _ rfl (List.map_congr_left fun k _ => ?_)
  simp only [Function.comp, Nat.succ_eq_add_one, Nat.mul_add, Nat.mul_one]

theorem picks_mem_cells (w : World) (n : Nat) : ∀ c ∈ w.picks n, c ∈ cells := by
  intro c hc
  simp only [World.picks, List.mem_map] at hc
  obtain ⟨k, _, rfl⟩ := hc
  rw [mem_cells]
  exact ⟨randCoord_bounds _, randCoord_bounds _⟩

theorem carrots_iter (n : Nat) : ∀ w : World,
    (∀ i j, w.field i j ≠ none → (addNewCarrots.step^[n] w).field i j = w.field i j)
      ∧ (∀ q, q < w.next → (addNewCarrots.step^[n] w).heap q = w.heap q)
      ∧ (∀ i j, (i, j) ∉ w.picks n → (addNewCarrots.step^[n] w).field i j = w.field i j)
      ∧ (∀ i j, (i, j) ∈ w.picks n → w.field i j = none →
          ∃ p, w.next ≤ p ∧ (addNewCarrots.step^[n] w).field i j = some p
            ∧ (addNewCarrots.step^[n] w).heap p = some (.Carrot i j 5))
      ∧ (addNewCarrots.step^[n] w).next = w.next
          + cells.countP fun c => decide (c ∈ w.picks n ∧ w.field c.1 c.2 = none) := by
  induction n with
  | zero =>
    intro w
    refine ⟨fun _ _ _ => rfl, fun _ _ => rfl, fun _ _ _ => rfl, ?_, ?_⟩
    · intro i j h; simp [World.picks] at h
    · simp [World.picks]
  | succ n ih =>
    intro w
    obtain ⟨a1, a2, a3, a4, a5⟩ := ih (addNewCarrots.step w)
    rw [Function.iterate_succ_apply, picks_succ]
    have hpk : (addNewCarrots.step w).picks n = w.pick.2.picks n := by
      unfold addNewCarrots.step
      simp only
      split <;> rfl
    rw [hpk] at a3 a4 a5
    by_cases he : w.field w.pick.1.1 w.pick.1.2 = none
    · -- the picked cell is empty: a new `Carrot` is placed
      have hs : addNewCarrots.step w
          = w.pick.2.place w.pick.1.1 w.pick.1.2 (.Carrot w.pick.1.1 w.pick.1.2 5) := by
        have he' : w.pick.2.field w.pick.1.1 w.pick.1.2 = none := he
        simp only [addNewCarrots.step, he', if_true]
      have hfield : ∀ i j, (addNewCarrots.step w).field i j
          = if i = w.pick.1.1 ∧ j = w.pick.1.2 then some w.next else w.field i j := by
        intro i j; rw [hs]; rfl
      have hheap : ∀ q, (addNewCarrots.step w).heap q
          = if q = w.next then some (.Carrot w.pick.1.1 w.pick.1.2 5) else w.heap q := by
        intro q; rw [hs]; rfl
      have hnext : (addNewCarrots.step w).next = w.next + 1 := by rw [hs]; rfl
      refine ⟨?_, ?_, ?_, ?_, ?_⟩
      · intro i j hij
        have hne : ¬ (i = w.pick.1.1 ∧ j = w.pick.1.2) := by
          rintro ⟨rfl, rfl⟩; exact hij he
        rw [a1 i j (by rw [hfield, if_neg hne]; exact hij), hfield, if_neg hne]
      · intro q hq
        rw [a2 q (by omega), hheap, if_neg (by omega)]
      · intro i j hij
        have hne : ¬ (i = w.pick.1.1 ∧ j = w.pick.1.2) := by
          rintro ⟨rfl, rfl⟩; exact hij (List.mem_cons_self _ _)
        rw [a3 i j (fun h => hij (List.mem_cons_of_mem _ h)), hfield, if_neg hne]
      · intro i j hij hempty
        by_cases hc : i = w.pick.1.1 ∧ j = w.pick.1.2
        · refine ⟨w.next, le_refl _, ?_, ?_⟩
          · rw [a1 i j (by rw [hfield, if_pos hc]; simp), hfield, if_pos hc]
          · rw [a2 _ (by omega), hheap, if_pos rfl, hc.1, hc.2]
        · have hin : (i, j) ∈ w.pick.2.picks n := by
            rcases List.mem_cons.mp hij with h | h
            · exact absurd ⟨congrArg Prod.fst h, congrArg Prod.snd h⟩ hc
            · exact h
          obtain ⟨p, hp1, hp2, hp3⟩ := a4 i j hin (by rw [hfield, if_neg hc]; exact hempty)
          exact ⟨p, by omega, hp2, hp3⟩
      · rw [a5, hnext]
        have := countP_set_true cells cells_nodup
          (fun c => decide (c ∈ w.pick.2.picks n
            ∧ (addNewCarrots.step w).field c.1 c.2 = none))
          (fun c => decide (c ∈ w.pick.1 :: w.pick.2.picks n ∧ w.field c.1 c.2 = none))
          w.pick.1 (pick_mem_cells w) ?_ ?_ ?_
        · rw [this]; omega
        · simp [hfield]
        · simp [he]
        · rintro ⟨i, j⟩ hne
          have hne' : ¬ (i = w.pick.1.1 ∧ j = w.pick.1.2) := fun h =>
            hne (Prod.ext h.1 h.2)
          simp [hfield, hne', hne]
    · -- the picked cell is occupied: nothing happens
      have hs : addNewCarrots.step w = w.pick.2 := by
        have he' : ¬ (w.pick.2.field w.pick.1.1 w.pick.1.2 = none) := he
        simp only [addNewCarrots.step, he', if_false]
      rw [hs] at a1 a2 a3 a4 a5 ⊢
      refine ⟨a1, a2, ?_, ?_, ?_⟩
      · intro i j hij
        exact a3 i j (fun h => hij (List.mem_cons_of_mem _ h))
      · intro i j hij hempty
        have hin : (i, j) ∈ w.pick.2.picks n := by
          rcases List.mem_cons.mp hij with h | h
          · have h1 : i = w.pick.1.1 := congrArg Prod.fst h
            have h2 : j = w.pick.1.2 := congrArg Prod.snd h
            rw [h1, h2] at hempty; exact absurd hempty he
          · exact h
        exact a4 i j hin hempty
      · rw [a5]
        congr 1
        apply List.countP_congr
        rintro ⟨i, j⟩ _
        have hf : w.pick.2.field = w.field := rfl
        simp only [hf, List.mem_cons, decide_eq_true_eq]
        constructor
        · rintro ⟨h1, h2⟩; exact ⟨Or.inr h1, h2⟩
        · rintro ⟨h1 | h1, h2⟩
          · have e1 : i = w.pick.1.1 := congrArg Prod.fst h1
            have e2 : j = w.pick.1.2 := congrArg Prod.snd h1
            simp only [e1, e2] at h2; exact absurd h2 he
          · exact ⟨h1, h2⟩

theorem countP_mem_eq_dedup {α : Type} [DecidableEq α] (l m : List α) (hl : l.Nodup)
    (hm : ∀ c ∈ m, c ∈ l) (P : α → Prop) [DecidablePred P] :
    l.countP (fun c => decide (c ∈ m ∧ P c))
      = (m.dedup.filter fun c => decide (P c)).length := by
  rw [List.countP_eq_length_filter]
  apply List.Perm.length_eq
  rw [List.perm_ext_iff_of_nodup (hl.filter _) ((List.nodup_dedup m).filter _)]
  intro c
  simp only [List.mem_filter, List.mem_dedup, decide_eq_true_eq]
  constructor
  · rintro ⟨_, h2, h3⟩; exact ⟨h2, h3⟩
  · rintro ⟨h2, h3⟩; exact ⟨hm c h2, h2, h3⟩

/-- C11. Replenish Food: `addNewCarrots` leaves every occupied cell as it is and changes no
object that existed before the call, changes no cell that is not among its 5 picks, and
puts a new `Carrot` (`lifeSpan` 5, stored coordinates equal to its cell) into every picked
cell that was empty; the number of objects it creates is the number of distinct empty
cells among the 5 picks, which is at most 5. -/
theorem addNewCarrots_frame (w : World) :
    (∀ i j, w.field i j ≠ none → (addNewCarrots w).field i j = w.field i j)
      ∧ (∀ q, q < w.next → (addNewCarrots w).heap q = w.heap q)
      ∧ (∀ i j, (i, j) ∉ w.picks 5 → (addNewCarrots w).field i j = w.field i j)
      ∧ (∀ i j, (i, j) ∈ w.picks 5 → w.field i j = none →
          ∃ p, w.next ≤ p ∧ (addNewCarrots w).field i j = some p
            ∧ (addNewCarrots w).heap p = some (.Carrot i j 5))
      ∧ (addNewCarrots w).next = w.next
          + ((w.picks 5).dedup.filter fun c => decide (w.field c.1 c.2 = none)).length
      ∧ ((w.picks 5).dedup.filter fun c => decide (w.field c.1 c.2 = none)).length ≤ 5 := by
  obtain ⟨a1, a2, a3, a4, a5⟩ := carrots_iter 5 w
  refine ⟨a1, a2, a3, a4, ?_, ?_⟩
  · unfold addNewCarrots
    rw [a5]
    congr 1
    convert countP_mem_eq_dedup cells (w.picks 5) cells_nodup (picks_mem_cells w 5)
      (fun c => w.field c.1 c.2 = none) using 2
    funext c
    exact decide_eq_decide.2 Iff.rfl
  · calc ((w.picks 5).dedup.filter fun c => decide (w.field c.1 c.2 = none)).length
        ≤ (w.picks 5).dedup.length := List.length_filter_le _ _
      _ ≤ (w.picks 5).length := (List.dedup_sublist _).length_le
      _ = 5 := by simp [World.picks]

theorem edgeCellsOf_cons (i : Int) (rows : List Int) :
    edgeCellsOf (i :: rows) = (i, 0) :: (i, FIELD_SIZE - 1) :: edgeCellsOf rows := by
  simp [edgeCellsOf, List.flatMap_cons]

theorem scan_of_no_emptyEdges (w : World) : ∀ rows : List Int,
    w.emptyEdges rows = [] → ensureMinimumWolves.scan w rows = (w, 0) := by
  intro rows
  induction rows with
  | nil => intro _; rfl
  | cons i rest ih =>
    intro h
    simp only [World.emptyEdges, edgeCellsOf_cons, List.filter_cons] at h
    by_cases h0 : w.field i 0 = none
    · simp [h0] at h
    · by_cases h9 : w.field i (FIELD_SIZE - 1) = none
      · simp [h0, h9] at h
      · simp only [h0, h9, decide_False, Bool.false_eq_true, if_false] at h
        simp only [ensureMinimumWolves.scan, h0, h9, if_false]
        exact ih h

theorem scan_of_emptyEdges (w : World) (a : Int × Int) (tl : List (Int × Int)) :
    ∀ rows : List Int, w.emptyEdges rows = a :: tl →
      ensureMinimumWolves.scan w rows = (w.place a.1 a.2 (.Wolf a.1 a.2 f32two 0 false), 1) := by
  intro rows
  induction rows with
  | nil => intro h; simp [World.emptyEdges, edgeCellsOf] at h
  | cons i rest ih =>
    intro h
    simp only [World.emptyEdges, edgeCellsOf_cons, List.filter_cons] at h
    by_cases h0 : w.field i 0 = none
    · simp only [h0, decide_True, if_true, List.cons.injEq] at h
      simp only [ensureMinimumWolves.scan, h0, if_true, ← h.1]
    · by_cases h9 : w.field i (FIELD_SIZE - 1) = none
      · simp only [h0, h9, decide_True, decide_False, Bool.false_eq_true, if_true, if_false,
          List.cons.injEq] at h
        simp only [ensureMinimumWolves.scan, h0, h9, if_true, if_false, ← h.1]
      · simp only [h0, h9, decide_False, Bool.false_eq_true, if_false] at h
        simp only [ensureMinimumWolves.scan, h0, h9, if_false]
        exact ih h

theorem edgeCells_nodup : (edgeCellsOf axis).Nodup := by decide!

theorem edgeCells_mem_cells : ∀ c ∈ edgeCellsOf axis, c ∈ cells := by decide!

theorem emptyEdges_place (w : World) (a : Int × Int) (tl : List (Int × Int)) (c : Creature)
    (h : w.emptyEdges axis = a :: tl) : (w.place a.1 a.2 c).emptyEdges axis = tl := by
  have hnd : (a :: tl).Nodup := by
    rw [← h]; exact edgeCells_nodup.filter _
  have hfilter : (w.place a.1 a.2 c).emptyEdges axis
      = (w.emptyEdges axis).filter fun d => decide (d ≠ a) := by
    simp only [World.emptyEdges, List.filter_filter]
    apply List.filter_congr
    rintro ⟨i, j⟩ _
    simp only [World.place, World.alloc, World.setCell, Grid.put]
    by_cases hij : i = a.1 ∧ j = a.2
    · have : (i, j) = a := Prod.ext hij.1 hij.2
      simp [hij, this]
    · have : (i, j) ≠ a := fun e => hij ⟨congrArg Prod.fst e, congrArg Prod.snd e⟩
      simp [hij, this]
  rw [hfilter, h, List.filter_cons]
  simp only [ne_eq, not_true_eq_false, decide_False, Bool.false_eq_true, if_false]
  rw [List.filter_eq_self]
  intro d hd
  have : d ≠ a := fun e => (List.nodup_cons.mp hnd).1 (e ▸ hd)
  simpa using this

theorem wolf_loop_places : ∀ (k fuel : Nat) (w : World) (count : Int),
    w.Fresh → count = countWolves w → (MIN_WOLVES - count).toNat = k →
    k ≤ (w.emptyEdges axis).length → k ≤ fuel →
    ∃ w1, ensureMinimumWolves.loop fuel w count = some w1
      ∧ (∀ c ∈ (w.emptyEdges axis).take k, ∃ p, w.next ≤ p ∧ w1.field c.1 c.2 = some p
          ∧ w1.heap p = some (.Wolf c.1 c.2 f32two 0 false))
      ∧ (∀ i j, (i, j) ∉ (w.emptyEdges axis).take k → w1.field i j = w.field i j)
      ∧ (∀ q, q < w.next → w1.heap q = w.heap q)
      ∧ countWolves w1 = max count MIN_WOLVES := by
  intro k
  induction k with
  | zero =>
    intro fuel w count _ hcount hk _ _
    have hge : ¬ count < MIN_WOLVES := by
      have := Int.toNat_eq_zero.mp hk
      omega
    refine ⟨w, ?_, ?_, fun _ _ _ => rfl, fun _ _ => rfl, ?_⟩
    · cases fuel <;> simp [ensureMinimumWolves.loop, hge]
    · intro c hc; simp at hc
    · rw [max_eq_left (by omega)]; exact hcount.symm
  | succ k ih =>
    intro fuel w count hf hcount hk hcap hfuel
    have hlt : count < MIN_WOLVES := by omega
    obtain ⟨fuel, rfl⟩ : ∃ f, fuel = f + 1 := ⟨fuel - 1, by omega⟩
    cases hE : w.emptyEdges axis with
    | nil => rw [hE] at hcap; simp at hcap
    | cons a tl =>
      have hscan := scan_of_emptyEdges w a tl axis hE
      have hain : a ∈ edgeCellsOf axis := by
        have : a ∈ w.emptyEdges axis := by rw [hE]; exact List.mem_cons_self _ _
        exact (List.mem_filter.mp this).1
      have haempty : w.field a.1 a.2 = none := by
        have : a ∈ w.emptyEdges axis := by rw [hE]; exact List.mem_cons_self _ _
        simpa using (List.mem_filter.mp this).2
      have hnd : (a :: tl).Nodup := by
        rw [← hE]; exact edgeCells_nodup.filter _
      have hE1 := emptyEdges_place w a tl (.Wolf a.1 a.2 f32two 0 false) hE
      have hcw : countWolves (w.place a.1 a.2 (.Wolf a.1 a.2 f32two 0 false))
          = countWolves w + 1 :=
        countWolves_place_wolf w a.1 a.2 _ rfl hf (edgeCells_mem_cells a hain) haempty
      obtain ⟨w1, r1, r2, r3, r4, r5⟩ := ih fuel
        (w.place a.1 a.2 (.Wolf a.1 a.2 f32two 0 false)) (count + 1)
        (fresh_place _ _ _ _ hf) (by rw [hcw, hcount]) (by omega)
        (by rw [hE1]; rw [hE] at hcap; simpa using hcap) (by omega)
      rw [hE1] at r2 r3
      have hnext : (w.place a.1 a.2 (.Wolf a.1 a.2 f32two 0 false)).next = w.next + 1 := rfl
      have hfield : ∀ i j, (w.place a.1 a.2 (.Wolf a.1 a.2 f32two 0 false)).field i j
          = if i = a.1 ∧ j = a.2 then some w.next else w.field i j := fun _ _ => rfl
      have hheap : ∀ q, (w.place a.1 a.2 (.Wolf a.1 a.2 f32two 0 false)).heap q
          = if q = w.next then some (.Wolf a.1 a.2 f32two 0 false) else w.heap q :=
        fun _ => rfl
      refine ⟨w1, ?_, ?_, ?_, ?_, ?_⟩
      · simp only [ensureMinimumWolves.loop, hlt, if_true, hscan]
        exact r1
      · intro c hc
        rw [List.take_succ_cons] at hc
        rcases List.mem_cons.mp hc with rfl | hc
        · have hnot : (c.1, c.2) ∉ tl.take k := fun h =>
            (List.nodup_cons.mp hnd).1 (List.mem_of_mem_take h)
          refine ⟨w.next, le_refl _, ?_, ?_⟩
          · rw [r3 c.1 c.2 hnot, hfield, if_pos ⟨rfl, rfl⟩]
          · rw [r4 w.next (by omega), hheap, if_pos rfl]
        · obtain ⟨p, hp1, hp2, hp3⟩ := r2 c hc
          exact ⟨p, by omega, hp2, hp3⟩
      · intro i j hij
        rw [List.take_succ_cons] at hij
        have hne : ¬ (i = a.1 ∧ j = a.2) := fun h =>
          hij (by rw [h.1, h.2]; exact List.mem_cons_self _ _)
        rw [r3 i j (fun h => hij (List.mem_cons_of_mem _ h)), hfield, if_neg hne]
      · intro q hq
        rw [r4 q (by omega), hheap, if_neg (by omega)]
      · rw [r5]
        have h5 : MIN_WOLVES = 5 := rfl
        rw [h5] at hlt ⊢
        omega

/-- C12. Predator floor placement: in a state whose grid pointers were all allocated
earlier, with `c` `Wolf` cells and at least `max 0 (5 - c)` empty cells in columns `0` and
`FIELD_SIZE - 1`, `ensureMinimumWolves` terminates (any fuel of at least `max 0 (5 - c)`
iterations gives a result); the result holds a new `Wolf` (hunger `2.0`, no eaten hare,
flag unset, stored coordinates equal to its cell) in each of the first `max 0 (5 - c)`
empty edge cells in the order `(0, 0)`, `(0, FIELD_SIZE - 1)`, `(1, 0)`, …, is unchanged in
every other cell, in particular in every occupied and every interior cell, changes no
earlier object, and has `max c 5` `Wolf` cells. -/
theorem ensureMinimumWolves_places (fuel : Nat) (w : World) (hfresh : w.Fresh)
    (hcap : (MIN_WOLVES - countWolves w).toNat ≤ (w.emptyEdges axis).length)
    (hfuel : (MIN_WOLVES - countWolves w).toNat ≤ fuel) :
    ∃ w1, ensureMinimumWolves fuel w = some w1
      ∧ (∀ c ∈ (w.emptyEdges axis).take (MIN_WOLVES - countWolves w).toNat,
          w1.actor c.1 c.2 = some (.Wolf c.1 c.2 f32two 0 false)
            ∧ ∃ p, w.next ≤ p ∧ w1.field c.1 c.2 = some p)
      ∧ (∀ i j, (i, j) ∉ (w.emptyEdges axis).take (MIN_WOLVES - countWolves w).toNat →
          w1.field i j = w.field i j)
      ∧ (∀ q, q < w.next → w1.heap q = w.heap q)
      ∧ countWolves w1 = max (countWolves w) MIN_WOLVES
      ∧ (∀ i j, w.field i j ≠ none → w1.field i j = w.field i j)
      ∧ (∀ i j, j ≠ 0 → j ≠ FIELD_SIZE - 1 → w1.field i j = w.field i j) := by
  obtain ⟨w1, r1, r2, r3, r4, r5⟩ := wolf_loop_places _ fuel w (countWolves w) hfresh rfl rfl
    hcap hfuel
  refine ⟨w1, r1, ?_, r3, r4, r5, ?_, ?_⟩
  · intro c hc
    obtain ⟨p, hp1, hp2, hp3⟩ := r2 c hc
    exact ⟨by simp [World.actor, hp2, hp3], p, hp1, hp2⟩
  · intro i j hij
    apply r3
    intro h
    have := (List.mem_filter.mp (List.mem_of_mem_take h)).2
    simp at this
    exact hij this
  · intro i j h0 h9
    apply r3
    intro h
    have := (List.mem_filter.mp (List.mem_of_mem_take h)).1
    simp only [edgeCellsOf, axis, List.mem_flatMap, List.mem_cons, List.mem_singleton,
      Prod.mk.injEq, List.not_mem_nil, or_false] at this
    obtain ⟨_, _, h | h⟩ := this
    · exact h0 h.2
    · exact h9 h.2

/-- Witness of `ensureMinimumWolves_places`: `maintWorld` has one `Wolf`; four new ones are
placed in the first four empty edge cells. -/
theorem ensureMinimumWolves_places_witness :
    (maintWorld.emptyEdges axis).take 4 = [(1, 0), (1, 9), (2, 0), (2, 9)]
      ∧ ∃ w1, ensureMinimumWolves 4 maintWorld = some w1
          ∧ countWolves w1 = max (countWolves maintWorld) MIN_WOLVES :=
  ⟨by decide!,
    (ensureMinimumWolves_places 4 maintWorld fresh_maintWorld (by decide!) (by decide!)).imp
      fun _ h => ⟨h.1, h.2.2.2.2.1⟩⟩

theorem loop_succ_eq_body (fuel : Nat) (w : World) (count : Int) :
    ensureMinimumWolves.loop (fuel + 1) w count
      = if count < MIN_WOLVES then
          ensureMinimumWolves.loop fuel (ensureMinimumWolves.body (w, count)).1
            (ensureMinimumWolves.body (w, count)).2
        else some w := rfl

/-- C15. Predator floor non-termination: on a grid with fewer than 5 `Wolf` cells in which
every cell of column `0` and of column `FIELD_SIZE - 1` is occupied, an iteration of the
`while` loop of `ensureMinimumWolves` places nothing, so after any number of iterations
the grid and `wolfCount` are what they were, `wolfCount` is still below `MIN_WOLVES`,
and the loop does not exit with any amount of fuel (whatever the interior cells hold). -/
theorem wolf_floor_never_exits (w : World) (hlt : countWolves w < MIN_WOLVES)
    (hfull : ∀ i ∈ axis, w.field i 0 ≠ none ∧ w.field i (FIELD_SIZE - 1) ≠ none) :
    ensureMinimumWolves.scan w axis = (w, 0)
      ∧ (∀ n : Nat, ensureMinimumWolves.body^[n] (w, countWolves w) = (w, countWolves w)
          ∧ (ensureMinimumWolves.body^[n] (w, countWolves w)).2 < MIN_WOLVES)
      ∧ ∀ fuel : Nat, ensureMinimumWolves fuel w = none := by
  have hE : w.emptyEdges axis = [] := by
    simp only [World.emptyEdges, List.filter_eq_nil_iff, decide_eq_true_eq]
    rintro ⟨i, j⟩ hc
    simp only [edgeCellsOf, List.mem_flatMap, List.mem_cons, List.mem_singleton,
      Prod.mk.injEq, List.not_mem_nil, or_false] at hc
    obtain ⟨k, hk, h | h⟩ := hc
    · rw [h.1, h.2]; exact (hfull k hk).1
    · rw [h.1, h.2]; exact (hfull k hk).2
  have hscan := scan_of_no_emptyEdges w axis hE
  have hbody : ensureMinimumWolves.body (w, countWolves w) = (w, countWolves w) := by
    simp [ensureMinimumWolves.body, hscan]
  have hiter : ∀ n : Nat,
      ensureMinimumWolves.body^[n] (w, countWolves w) = (w, countWolves w) := by
    intro n
    induction n with
    | zero => rfl
    | succ n ih => rw [Function.iterate_succ_apply, hbody, ih]
  refine ⟨hscan, fun n => ⟨hiter n, by rw [hiter n]; exact hlt⟩, ?_⟩
  intro fuel
  unfold ensureMinimumWolves
  induction fuel with
  | zero => simp [ensureMinimumWolves.loop, hlt]
  | succ n ih => rw [loop_succ_eq_body, if_pos hlt, hbody]; exact ih

/-- Witness of `wolf_floor_never_exits`: `fullEdgeWorld` has no `Wolf`, full edge columns
and an empty interior. -/
theorem wolf_floor_never_exits_witness :
    countWolves fullEdgeWorld = 0 ∧ fullEdgeWorld.field 5 5 = none
      ∧ ∀ fuel : Nat, ensureMinimumWolves fuel fullEdgeWorld = none :=
  ⟨by decide!, by decide!,
    (wolf_floor_never_exits fullEdgeWorld (by decide!) (by decide!)).2.2⟩

theorem attempt_cases (w : World) (this : Nat) (r x y h e : Int) (f : Bool)
    (hheap : w.heap this = some (.Wolf x y h e f)) :
    ((Wolf.attempt w this r).2 = false ∧ (Wolf.attempt w this r).1 = w.skipWolfDraws 2
        ∧ ¬ Wolf.Accepts w x y r 0)
      ∨ ((Wolf.attempt w this r).2 = true ∧ Wolf.MovedBy w (Wolf.attempt w this r).1 x y r 1
          ∧ (Wolf.attempt w this r).1.wolfRng = (w.skipWolfDraws 2).wolfRng) := by
  simp only [Wolf.attempt, hheap, Wolf.MovedBy, Wolf.Accepts, Wolf.dest, Nat.lt_one_iff,
    exists_eq_left, Nat.mul_zero, Nat.zero_add]
  split
  · rename_i hz
    exact Or.inl ⟨rfl, rfl, fun h => h.1 hz⟩
  · rename_i hz
    split
    · rename_i hmove
      have hmove' : w.field (wrap x (uniformInt (-r) r (w.wolfRng 0)))
          (wrap y (uniformInt (-r) r (w.wolfRng 1))) = none
          ∨ w.isRabbit (wrap x (uniformInt (-r) r (w.wolfRng 0)))
            (wrap y (uniformInt (-r) r (w.wolfRng 1))) = true := hmove
      split
      · split
        · refine Or.inr ⟨rfl, ⟨⟨hz, hmove'⟩, some w.next, Or.inr rfl, ?_⟩, rfl⟩
          funext a b
          simp only [World.setHeap, World.setCell, World.alloc, Grid.put]
          by_cases hab : a = x ∧ b = y
          · simp [hab]
          · simp [hab]
        · exact Or.inr ⟨rfl, ⟨⟨hz, hmove'⟩, w.field x y, Or.inl rfl, rfl⟩, rfl⟩
      · exact Or.inr ⟨rfl, ⟨⟨hz, hmove'⟩, w.field x y, Or.inl rfl, rfl⟩, rfl⟩
    · rename_i hmove
      exact Or.inl ⟨rfl, rfl, fun h => hmove h.2⟩

theorem dest_skip (w : World) (x y r : Int) (k : Nat) :
    Wolf.dest (w.skipWolfDraws 2) x y r k = Wolf.dest w x y r (k + 1) := by
  simp only [Wolf.dest, World.skipWolfDraws, Nat.mul_add, Nat.mul_one]

theorem accepts_skip (w : World) (x y r : Int) (k : Nat) :
    Wolf.Accepts (w.skipWolfDraws 2) x y r k ↔ Wolf.Accepts w x y r (k + 1) := by
  unfold Wolf.Accepts
  rw [dest_skip]
  have h1 : (w.skipWolfDraws 2).wolfRng (2 * k) = w.wolfRng (2 * (k + 1)) := by
    simp [World.skipWolfDraws, Nat.mul_add]
  have h2 : (w.skipWolfDraws 2).wolfRng (2 * k + 1) = w.wolfRng (2 * (k + 1) + 1) := by
    simp only [World.skipWolfDraws, Nat.mul_add, Nat.mul_one]
  rw [h1, h2]
  rfl

theorem skip_skip (w : World) (a b : Nat) :
    (w.skipWolfDraws a).skipWolfDraws b = w.skipWolfDraws (a + b) := by
  simp only [World.skipWolfDraws]
  congr 1
  funext j
  rw [Nat.add_assoc, Nat.add_comm b a]

theorem attempts_cases (n : Nat) : ∀ (w : World) (this : Nat) (r x y h e : Int) (f : Bool),
    w.heap this = some (.Wolf x y h e f) →
    (Wolf.attempts n w this r = w.skipWolfDraws (2 * n)
        ∧ ∀ k, k < n → ¬ Wolf.Accepts w x y r k)
      ∨ (Wolf.MovedBy w (Wolf.attempts n w this r) x y r n
          ∧ ∃ m, m ≤ n ∧ (Wolf.attempts n w this r).wolfRng
              = (w.skipWolfDraws (2 * m)).wolfRng) := by
  induction n with
  | zero =>
    intro w this r x y h e f _
    exact Or.inl ⟨rfl, fun k hk => absurd hk (Nat.not_lt_zero k)⟩
  | succ n ih =>
    intro w this r x y h e f hheap
    rcases attempt_cases w this r x y h e f hheap with ⟨hb, hs, hna⟩ | ⟨hb, hm, hrng⟩
    · have e1 : Wolf.attempt w this r = (w.skipWolfDraws 2, false) := by
        rw [← hb, ← hs]
      have hstep : Wolf.attempts (n + 1) w this r
          = Wolf.attempts n (w.skipWolfDraws 2) this r := by
        rw [Wolf.attempts, e1]
      rw [hstep]
      rcases ih (w.skipWolfDraws 2) this r x y h e f hheap with
        ⟨t1, t2⟩ | ⟨⟨k, hk, hacc, v, hv, hfield⟩, m, hm, hr⟩
      · left
        refine ⟨?_, ?_⟩
        · have e2 : 2 + 2 * n = 2 * (n + 1) := by omega
          rw [t1, skip_skip, e2]
        · intro k hk
          cases k with
          | zero => exact hna
          | succ k => exact fun h => t2 k (by omega) ((accepts_skip w x y r k).2 h)
      · right
        refine ⟨⟨k + 1, by omega, (accepts_skip w x y r k).1 hacc, v, hv, ?_⟩,
          m + 1, by omega, ?_⟩
        · rw [hfield, dest_skip]; rfl
        · have e2 : 2 + 2 * m = 2 * (m + 1) := by omega
          rw [hr, skip_skip, e2]
    · have e1 : Wolf.attempt w this r = ((Wolf.attempt w this r).1, true) := by
        rw [← hb]
      have hstep : Wolf.attempts (n + 1) w this r = (Wolf.attempt w this r).1 := by
        rw [Wolf.attempts, e1]
      rw [hstep]
      right
      obtain ⟨k, hk, hacc, v, hv, hfield⟩ := hm
      exact ⟨⟨k, by omega, hacc, v, hv, hfield⟩, 1, by omega, hrng⟩

theorem wolf_act_frame (w : World) (this : Nat) (x y h e : Int) (f : Bool)
    (hheap : w.heap this = some (.Wolf x y h e f)) (hpos : ¬ h ≤ 0) :
    (Wolf.moveAndAct w this).field
        = (Wolf.attempts 5 w this (if h < c05 then 2 else 1)).field
      ∧ (Wolf.moveAndAct w this).wolfRng
        = (Wolf.attempts 5 w this (if h < c05 then 2 else 1)).wolfRng := by
  simp only [Wolf.moveAndAct, hheap, hpos, if_false]
  split <;> exact ⟨rfl, rfl⟩

theorem uniformInt_range (r : Int) (hr : r = 1 ∨ r = 2) (raw : Nat) :
    -r ≤ uniformInt (-r) r raw ∧ uniformInt (-r) r raw ≤ r := by
  unfold uniformInt
  rcases hr with rfl | rfl
  · have h3 : ((1 : Int) - -1 + 1) = 3 := by norm_num
    rw [h3]; omega
  · have h5 : ((2 : Int) - -2 + 1) = 5 := by norm_num
    rw [h5]; omega

theorem wrap_eq_emod (c d : Int) (hc0 : 0 ≤ c) (hc : c < 10) (hd0 : -2 ≤ d) (hd : d ≤ 2) :
    wrap c d = (c + d) % FIELD_SIZE := by
  have h : wrap c d = (c + d + 10) % 10 := by
    unfold wrap FIELD_SIZE
    exact Int.tmod_eq_emod (by omega) (by omega)
  rw [h]
  unfold FIELD_SIZE
  omega

theorem dest_in_range (w : World) (x y r : Int) (k : Nat) (hin : (x, y) ∈ cells)
    (hr : r = 1 ∨ r = 2) :
    ∃ dx dy : Int, (-r ≤ dx ∧ dx ≤ r) ∧ (-r ≤ dy ∧ dy ≤ r)
      ∧ (Wolf.dest w x y r k).1 = (x + dx) % FIELD_SIZE
      ∧ (Wolf.dest w x y r k).2 = (y + dy) % FIELD_SIZE := by
  obtain ⟨⟨hx0, hx1⟩, hy0, hy1⟩ := (mem_cells x y).1 hin
  have h1 := uniformInt_range r hr (w.wolfRng (2 * k))
  have h2 := uniformInt_range r hr (w.wolfRng (2 * k + 1))
  refine ⟨_, _, h1, h2, ?_, ?_⟩
  · exact wrap_eq_emod x _ hx0 hx1 (by rcases hr with e | e <;> omega)
      (by rcases hr with e | e <;> omega)
  · exact wrap_eq_emod y _ hy0 hy1 (by rcases hr with e | e <;> omega)
      (by rcases hr with e | e <;> omega)

theorem moveRange_cases (h : Int) :
    (if h < c05 then (2 : Int) else 1) = 1 ∨ (if h < c05 then (2 : Int) else 1) = 2 := by
  split
  · exact Or.inr rfl
  · exact Or.inl rfl

theorem attempt_holds (w : World) (this : Nat) (r x y h e : Int) (f : Bool)
    (hheap : w.heap this = some (.Wolf x y h e f))
    (hcell : ∀ i j, w.field i j = some this ↔ (i = x ∧ j = y))
    (hnr : ¬ (e + 1 > 2 ∧ f = false)) :
    ((Wolf.attempt w this r).2 = false ∧ (Wolf.attempt w this r).1 = w.skipWolfDraws 2)
      ∨ ((Wolf.attempt w this r).2 = true
          ∧ ∃ a b, ∀ i j,
              (Wolf.attempt w this r).1.field i j = some this ↔ (i = a ∧ j = b)) := by
  have hxy : w.field x y = some this := (hcell x y).2 ⟨rfl, rfl⟩
  have hnotR : w.isRabbit x y = false := by
    simp [World.isRabbit, World.actor, hxy, hheap, Creature.isRabbit]
  have key : ∀ nx ny, (w.field nx ny = none ∨ w.isRabbit nx ny = true) → ∀ i j,
      ((w.field.put nx ny (w.field x y)).put x y none) i j = some this
        ↔ (i = nx ∧ j = ny) := by
    intro nx ny hd i j
    have hne : ¬ (nx = x ∧ ny = y) := by
      rintro ⟨rfl, rfl⟩
      rcases hd with hd | hd
      · rw [hxy] at hd; cases hd
      · rw [hnotR] at hd; cases hd
    simp only [Grid.put]
    by_cases h1 : i = x ∧ j = y
    · rw [if_pos h1]
      constructor
      · intro h; cases h
      · rintro ⟨a, b⟩
        exact absurd ⟨a.symm.trans h1.1, b.symm.trans h1.2⟩ hne
    · rw [if_neg h1]
      by_cases h2 : i = nx ∧ j = ny
      · rw [if_pos h2]; exact ⟨fun _ => h2, fun _ => hxy⟩
      · rw [if_neg h2]
        exact ⟨fun h => absurd ((hcell i j).1 h) h1, fun h => absurd h h2⟩
  simp only [Wolf.attempt, hheap]
  split
  · exact Or.inl ⟨rfl, rfl⟩
  · split
    · rename_i hmove
      split
      · exact Or.inr ⟨rfl, _, _, key _ _ hmove⟩
      · exact Or.inr ⟨rfl, _, _, key _ _ hmove⟩
    · exact Or.inl ⟨rfl, rfl⟩

theorem attempts_holds (n : Nat) : ∀ (w : World) (this : Nat) (r x y h e : Int) (f : Bool),
    w.heap this = some (.Wolf x y h e f) →
    (∀ i j, w.field i j = some this ↔ (i = x ∧ j = y)) →
    ¬ (e + 1 > 2 ∧ f = false) →
    ∃ a b, ∀ i j, (Wolf.attempts n w this r).field i j = some this ↔ (i = a ∧ j = b) := by
  induction n with
  | zero =>
    intro w this r x y h e f _ hcell _
    exact ⟨x, y, hcell⟩
  | succ n ih =>
    intro w this r x y h e f hheap hcell hnr
    rcases attempt_holds w this r x y h e f hheap hcell hnr with ⟨hb, hs⟩ | ⟨hb, hm⟩
    · have e1 : Wolf.attempt w this r = (w.skipWolfDraws 2, false) := by
        rw [← hb, ← hs]
      have hstep : Wolf.attempts (n + 1) w this r
          = Wolf.attempts n (w.skipWolfDraws 2) this r := by
        rw [Wolf.attempts, e1]
      rw [hstep]
      exact ih (w.skipWolfDraws 2) this r x y h e f hheap hcell hnr
    · have e1 : Wolf.attempt w this r = ((Wolf.attempt w this r).1, true) := by
        rw [← hb]
      have hstep : Wolf.attempts (n + 1) w this r = (Wolf.attempt w this r).1 := by
        rw [Wolf.attempts, e1]
      rw [hstep]
      exact hm

/-- A `Wolf` act that cannot reproduce: for a `Wolf` with positive hunger held exactly at
its stored coordinates `(x, y)` whose `eatenHares` is below 2 or whose `hasReproduced` is
set, exactly one cell holds the `Wolf` after the act. -/
theorem predator_held_after_act (w : World) (this : Nat) (x y h e : Int) (f : Bool)
    (hheap : w.heap this = some (.Wolf x y h e f))
    (hcell : ∀ i j, w.field i j = some this ↔ (i = x ∧ j = y))
    (hpos : 0 < h) (hnr : e < 2 ∨ f = true) :
    ∃ a b, ∀ i j, (Wolf.moveAndAct w this).field i j = some this ↔ (i = a ∧ j = b) := by
  have hnp : ¬ h ≤ 0 := by omega
  rw [(wolf_act_frame w this x y h e f hheap hnp).1]
  refine attempts_holds 5 w this _ x y h e f hheap hcell ?_
  rintro ⟨h1, h2⟩
  rcases hnr with h3 | h3
  · omega
  · rw [h2] at h3; cases h3

/-- C17 (the code at the failing input). In `reproWorld` the `Wolf` (object 0, hunger
`2.0`, `eatenHares` 2, `hasReproduced` unset) is held at its stored coordinates `(0, 0)`
and in no other cell, and its first trial draws the `Rabbit` at `(0, 1)`.  After its act
no cell of the grid holds it: the origin `(0, 0)` is empty and the destination `(0, 1)`
holds the newly created `Wolf` (object 2, stored coordinates `(0, 0)`), while the acting
`Wolf` has recorded `(0, 1)` as its coordinates. -/
theorem predator_in_no_cell_after_act :
    reproWorld.heap 0 = some (.Wolf 0 0 f32two 2 false)
      ∧ (∀ c ∈ cells, reproWorld.field c.1 c.2 = some 0 ↔ c = (0, 0))
      ∧ 0 < f32two ∧ ¬ (f32two < c05)
      ∧ Wolf.dest reproWorld 0 0 1 0 = (0, 1) ∧ reproWorld.isRabbit 0 1 = true
      ∧ (∀ c ∈ cells, ¬ ((Wolf.moveAndAct reproWorld 0).field c.1 c.2 = some 0))
      ∧ (Wolf.moveAndAct reproWorld 0).field 0 0 = none
      ∧ (Wolf.moveAndAct reproWorld 0).field 0 1 = some 2
      ∧ (Wolf.moveAndAct reproWorld 0).heap 2 = some (.Wolf 0 0 f32two 0 false)
      ∧ (Wolf.moveAndAct reproWorld 0).heap 0
          = some (.Wolf 0 1 (f32sub (f32add f32two c04) c02) 3 true) := by
  refine ⟨?_, ?_, ?_, ?_, ?_, ?_, ?_, ?_, ?_, ?_, ?_⟩ <;> decide!

/-- Movement range of a `Wolf` act: for a `Wolf` with positive hunger held exactly at its
stored coordinates `(x, y)` on the grid, with `moveRange` 2 if its hunger is below `0.5`
at the start of the act and 1 otherwise: a cell that holds the `Wolf` after the act is
either the origin (and then no grid cell has changed) or a cell different from the origin
whose row and column are `(x + dx) mod FIELD_SIZE`, `(y + dy) mod FIELD_SIZE` for offsets
within `moveRange`, and which was empty or held a `Rabbit` before the act; and every cell
the act changes is the origin or such a cell. -/
theorem predator_move_range (w : World) (this : Nat) (x y h e : Int) (f : Bool)
    (hheap : w.heap this = some (.Wolf x y h e f))
    (hcell : ∀ i j, w.field i j = some this ↔ (i = x ∧ j = y))
    (hin : (x, y) ∈ cells) (hpos : 0 < h) :
    (∀ i j, (Wolf.moveAndAct w this).field i j = some this →
        (i = x ∧ j = y ∧ (Wolf.moveAndAct w this).field = w.field)
          ∨ (¬ (i = x ∧ j = y)
            ∧ (∃ dx dy : Int, (-(if h < c05 then 2 else 1) ≤ dx ∧ dx ≤ (if h < c05 then 2 else 1))
                ∧ (-(if h < c05 then 2 else 1) ≤ dy ∧ dy ≤ (if h < c05 then 2 else 1))
                ∧ i = (x + dx) % FIELD_SIZE ∧ j = (y + dy) % FIELD_SIZE)
            ∧ (w.field i j = none ∨ w.isRabbit i j = true)))
      ∧ ∀ i j, (Wolf.moveAndAct w this).field i j ≠ w.field i j →
          (i = x ∧ j = y)
            ∨ ((∃ dx dy : Int,
                  (-(if h < c05 then 2 else 1) ≤ dx ∧ dx ≤ (if h < c05 then 2 else 1))
                  ∧ (-(if h < c05 then 2 else 1) ≤ dy ∧ dy ≤ (if h < c05 then 2 else 1))
                  ∧ i = (x + dx) % FIELD_SIZE ∧ j = (y + dy) % FIELD_SIZE)
              ∧ (w.field i j = none ∨ w.isRabbit i j = true)) := by
  have hnp : ¬ h ≤ 0 := by omega
  rw [(wolf_act_frame w this x y h e f hheap hnp).1]
  rcases attempts_cases 5 w this (if h < c05 then 2 else 1) x y h e f hheap with
    ⟨hs, _⟩ | ⟨⟨k, _, hacc, v, _, hfield⟩, _⟩
  · have hsame : (Wolf.attempts 5 w this (if h < c05 then 2 else 1)).field = w.field := by
      rw [hs]; rfl
    rw [hsame]
    refine ⟨fun i j hij => Or.inl ⟨((hcell i j).1 hij).1, ((hcell i j).1 hij).2, rfl⟩, ?_⟩
    intro i j hij
    exact absurd rfl hij
  · rw [hfield]
    have hd := dest_in_range w x y _ k hin (moveRange_cases h)
    constructor
    · intro i j hij
      right
      have hne : ¬ (i = x ∧ j = y) := by
        intro hxy
        simp [Grid.put, hxy] at hij
      simp only [Grid.put, hne, if_false] at hij
      refine ⟨hne, ?_⟩
      by_cases hd1 : i = (Wolf.dest w x y (if h < c05 then 2 else 1) k).1
          ∧ j = (Wolf.dest w x y (if h < c05 then 2 else 1) k).2
      · rw [hd1.1, hd1.2]
        exact ⟨hd, hacc.2⟩
      · rw [if_neg hd1] at hij
        exact absurd ((hcell i j).1 hij) hne
    · intro i j hij
      by_cases hxy : i = x ∧ j = y
      · exact Or.inl hxy
      · right
        simp only [Grid.put, hxy, if_false] at hij
        by_cases hd1 : i = (Wolf.dest w x y (if h < c05 then 2 else 1) k).1
            ∧ j = (Wolf.dest w x y (if h < c05 then 2 else 1) k).2
        · rw [hd1.1, hd1.2]
          exact ⟨hd, hacc.2⟩
        · rw [if_neg hd1] at hij
          exact absurd rfl hij

theorem flaggedWolfWorld_cell (i j : Int) :
    flaggedWolfWorld.field i j = some 0 ↔ (i = 0 ∧ j = 0) := by
  simp only [flaggedWolfWorld, emptyWorld, World.place, World.alloc, World.setCell, Grid.put]
  by_cases h1 : i = 0 ∧ j = 1
  · simp [h1]
  · by_cases h0 : i = 0 ∧ j = 0
    · simp [h0]
    · simp [h1, h0]

/-- Witness of `predator_move_range`: the `Wolf` of `flaggedWolfWorld` moves from `(0, 0)`
onto the `Rabbit` at `(0, 1)`. -/
theorem predator_move_range_witness :
    flaggedWolfWorld.heap 0 = some (.Wolf 0 0 f32two 3 true)
      ∧ (Wolf.moveAndAct flaggedWolfWorld 0).field 0 1 = some 0
      ∧ (flaggedWolfWorld.field 0 1 = none ∨ flaggedWolfWorld.isRabbit 0 1 = true) :=
  ⟨rfl, by decide!,
    ((predator_move_range flaggedWolfWorld 0 0 0 f32two 3 true rfl flaggedWolfWorld_cell
      (by decide!) (by decide!)).2 0 1 (by decide!)).elim (fun h => absurd h.2 (by decide))
      fun h => h.2⟩

theorem foldl_traced_fst (l : List (Int × Int)) : ∀ s : World × List Nat,
    (l.foldl actCellTraced s).1 = l.foldl actCell s.1 := by
  induction l with
  | nil => intro s; rfl
  | cons c t ih =>
    intro s
    simp only [List.foldl_cons]
    rw [ih]
    congr 1
    unfold actCellTraced actCell
    cases s.1.field c.1 c.2 <;> rfl

/-- C16. Double act in one pass: the Acting pass visits the 100 cells once each in
row-major order (cell number `k` is `(k / 10, k % 10)`) and acts on whatever the cell
holds when it is visited (the traced pass ends in the state of `actingPass`); on the grid
that holds one new `Rabbit` at `(0, 0)` whose draws always are `dx = 0`, `dy = 1`, a
single pass invokes the behaviour of that one object 7 times, and its hunger goes from
`1.0` to `hungerAfter 6`, a drop of more than `0.2`. -/
theorem double_act_in_one_pass :
    cells = (List.range 100).map (fun k => (((k / 10 : Nat) : Int), ((k % 10 : Nat) : Int)))
      ∧ (∀ w : World, (actingTrace w).1 = actingPass w)
      ∧ (∀ (w : World) (c : Int × Int), w.field c.1 c.2 = none → actCell w c = w)
      ∧ (∀ (w : World) (c : Int × Int) (p : Nat), w.field c.1 c.2 = some p →
          actCell w c = moveAndAct w p)
      ∧ hopWorld.heap 0 = some (.Rabbit 0 0 f32one)
      ∧ (∀ c ∈ cells, c ≠ (0, 0) → hopWorld.field c.1 c.2 = none)
      ∧ (actingTrace hopWorld).2 = [0, 0, 0, 0, 0, 0, 0]
      ∧ 1 < (actingTrace hopWorld).2.count 0
      ∧ (actingPass hopWorld).heap 0 = some (.Rabbit 0 6 (hungerAfter 6))
      ∧ c02 < f32one - hungerAfter 6 := by
  refine ⟨by decide!, fun w => foldl_traced_fst cells (w, []), ?_, ?_, by decide!, by decide!,
    by decide!, by decide!, by decide!, by decide!⟩
  · intro w c h
    simp [actCell, h]
  · intro w c p h
    simp [actCell, h]

theorem foldl_append_flatMap {α : Type} (f : α → List Char) (l : List α) :
    ∀ init : List Char, l.foldl (fun o a => o ++ f a) init = init ++ l.flatMap f := by
  induction l with
  | nil => intro init; simp
  | cons a t ih => intro init; simp [List.foldl_cons, ih, List.flatMap_cons]

theorem token_eq_glyph (w : World) (i j : Int) :
    printField.token w i j = [glyph (w.actor i j), ' '] := by
  unfold printField.token World.isCarrot World.isRabbit World.isWolf
  cases w.actor i j with
  | none => rfl
  | some c => cases c <;> rfl

theorem row_eq (w : World) (i : Int) (out : List Char) :
    printField.row w i out = out ++ (spacedRow w i ++ ['\n']) := by
  unfold printField.row spacedRow
  rw [foldl_append_flatMap]
  have h : printField.token w i = fun j => [glyph (w.actor i j), ' '] :=
    funext (token_eq_glyph w i)
  rw [h, List.append_assoc]
  rfl

theorem spacedRow_eq (w : World) (i : Int) : spacedRow w i = separatedRow w i ++ [' '] := by
  simp [spacedRow, separatedRow, axis, List.flatMap_cons, List.intersperse]

/-- C13 (as amended). Render contract: the text `printField` writes is, for each row `i` in
order, the tokens of cells `(i, 0)`, …, `(i, FIELD_SIZE - 1)` (`C` for a `Carrot`, `R` for
a `Rabbit`, `W` for a `Wolf`, `.` for an empty cell), each token followed by one space,
then a newline; after the rows comes one line of exactly 25 `=` characters and a newline,
and nothing else.  A row is thus the tokens separated by single spaces plus one trailing
space, `2 * FIELD_SIZE` characters before its newline. -/
theorem printField_text (w : World) :
    printField w
        = (axis.flatMap fun i => spacedRow w i ++ ['\n']) ++ List.replicate 25 '=' ++ ['\n']
      ∧ (∀ i, spacedRow w i = separatedRow w i ++ [' '])
      ∧ (∀ i, (spacedRow w i).length = 20 ∧ '\n' ∉ spacedRow w i)
      ∧ axis.length = 10 := by
  refine ⟨?_, spacedRow_eq w, ?_, rfl⟩
  · unfold printField
    have h : ∀ (l : List Int) (init : List Char),
        l.foldl (fun o i => printField.row w i o) init
          = init ++ l.flatMap fun i => spacedRow w i ++ ['\n'] := by
      intro l
      induction l with
      | nil => intro init; simp
      | cons a t ih =>
        intro init
        rw [List.foldl_cons, ih, row_eq]
        simp [List.flatMap_cons]
    rw [h]
    simp only [List.nil_append, List.append_assoc]
    rfl
  · intro i
    constructor
    · simp [spacedRow, axis, List.flatMap_cons]
    · simp only [spacedRow, axis, List.flatMap_cons, List.flatMap_nil, List.mem_append,
        List.mem_cons, List.mem_singleton, List.not_mem_nil, or_false, not_or]
      have hg : ∀ o : Option Creature, ¬ '\n' = glyph o := by
        intro o
        cases o with
        | none => simp [glyph]
        | some c => cases c <;> simp [glyph]
      have hs : ¬ '\n' = ' ' := by decide
      simp [hg, hs]

/-- C13 (counterexample). On the empty grid the first row `printField` writes is
`". . . . . . . . . . "`, 20 characters ending in a space, and not the 19 characters of 10
tokens separated by single spaces; so the text is not of the form "rows of tokens
separated by single spaces, each ended by a newline, then a line of `=`". -/
theorem printField_trailing_space :
    (printField blankWorld).takeWhile (fun c => c != '\n') = ". . . . . . . . . . ".toList
      ∧ separatedRow blankWorld 0 = ". . . . . . . . . .".toList
      ∧ ¬ ∃ n : Nat, printField blankWorld
          = (axis.flatMap fun i => separatedRow blankWorld i ++ ['\n'])
            ++ List.replicate n '=' ++ ['\n'] := by
  refine ⟨by decide!, by decide!, ?_⟩
  rintro ⟨n, h⟩
  have h1 := congrArg (List.take 20) h
  rw [List.append_assoc, List.take_append_of_le_length (by decide!)] at h1
  revert h1
  decide!

theorem seed_eq_seedFrom (rabbitRng wolfRng crand : Nat → Nat) :
    seed rabbitRng wolfRng crand = seedFrom 0 30 (emptyWorld rabbitRng wolfRng crand) := by
  simp only [seed, seedFrom, Function.iterate_succ, Function.iterate_zero, Function.comp, id]
  rfl

theorem picks_eq_map (w : World) (n : Nat) : w.picks n = (List.range n).map w.pickAt := rfl

theorem pickAt_pick (w : World) (k : Nat) : w.pick.2.pickAt k = w.pickAt (k + 1) := by
  simp only [World.pickAt, World.pick, Nat.mul_add, Nat.mul_one]

theorem pickAt_zero (w : World) : w.pickAt 0 = w.pick.1 := rfl

theorem mem_picks (w : World) (n : Nat) (c : Int × Int) :
    c ∈ w.picks n ↔ ∃ k, k < n ∧ w.pickAt k = c := by
  simp [picks_eq_map, List.mem_map]

theorem last_occurrence {α : Type} [DecidableEq α] (f : Nat → α) (c : α) : ∀ n : Nat,
    (∃ k, k < n ∧ f k = c) →
    ∃ k, k < n ∧ f k = c ∧ ∀ k1, k < k1 → k1 < n → f k1 ≠ c := by
  intro n
  induction n with
  | zero => rintro ⟨k, hk, _⟩; omega
  | succ n ih =>
    rintro ⟨k, hk, hkc⟩
    by_cases hn : f n = c
    · exact ⟨n, by omega, hn, fun k1 h1 h2 => by omega⟩
    · have hkn : k < n := by
        rcases Nat.lt_succ_iff_lt_or_eq.mp hk with h | h
        · exact h
        · rw [h] at hkc; exact absurd hkc hn
      obtain ⟨k0, h0, h1, h2⟩ := ih ⟨k, hkn, hkc⟩
      refine ⟨k0, by omega, h1, fun k1 h3 h4 => ?_⟩
      by_cases h5 : k1 = n
      · rw [h5]; exact hn
      · exact h2 k1 h3 (by omega)

theorem seedFrom_spec (n : Nat) : ∀ (lo : Nat) (w : World),
    (∀ q, q < w.next → (seedFrom lo n w).heap q = w.heap q)
      ∧ (∀ i j, (i, j) ∉ w.picks n → (seedFrom lo n w).field i j = w.field i j)
      ∧ ∀ k, k < n → (∀ k1, k < k1 → k1 < n → w.pickAt k1 ≠ w.pickAt k) →
          (seedFrom lo n w).field (w.pickAt k).1 (w.pickAt k).2 = some (w.next + k)
            ∧ (seedFrom lo n w).heap (w.next + k)
              = some (seedKind (lo + k) (w.pickAt k).1 (w.pickAt k).2) := by
  induction n with
  | zero =>
    intro lo w
    exact ⟨fun _ _ => rfl, fun _ _ _ => rfl, fun k hk => absurd hk (Nat.not_lt_zero k)⟩
  | succ n ih =>
    intro lo w
    obtain ⟨a1, a2, a3⟩ := ih (lo + 1) (seedStep (seedKind lo) w)
    have hfield : ∀ i j, (seedStep (seedKind lo) w).field i j
        = if i = (w.pickAt 0).1 ∧ j = (w.pickAt 0).2 then some w.next else w.field i j :=
      fun _ _ => rfl
    have hheap : ∀ q, (seedStep (seedKind lo) w).heap q
        = if q = w.next then some (seedKind lo (w.pickAt 0).1 (w.pickAt 0).2)
          else w.heap q := fun _ => rfl
    have hnext : (seedStep (seedKind lo) w).next = w.next + 1 := rfl
    have hpick : ∀ k, (seedStep (seedKind lo) w).pickAt k = w.pickAt (k + 1) :=
      fun k => pickAt_pick w k
    have hmem : ∀ c, c ∈ (seedStep (seedKind lo) w).picks n → c ∈ w.picks (n + 1) := by
      intro c hc
      obtain ⟨k, hk, hkc⟩ := (mem_picks _ _ _).1 hc
      exact (mem_picks _ _ _).2 ⟨k + 1, by omega, by rw [← hpick]; exact hkc⟩
    have h0mem : w.pickAt 0 ∈ w.picks (n + 1) := (mem_picks _ _ _).2 ⟨0, by omega, rfl⟩
    simp only [seedFrom]
    refine ⟨?_, ?_, ?_⟩
    · intro q hq
      rw [a1 q (by omega), hheap, if_neg (by omega)]
    · intro i j hij
      have hne : ¬ (i = (w.pickAt 0).1 ∧ j = (w.pickAt 0).2) := fun h =>
        hij (by rw [h.1, h.2]; exact h0mem)
      rw [a2 i j (fun h => hij (hmem _ h)), hfield, if_neg hne]
    · intro k hk hlast
      cases k with
      | zero =>
        have hnot : ((w.pickAt 0).1, (w.pickAt 0).2) ∉ (seedStep (seedKind lo) w).picks n := by
          intro h
          obtain ⟨k1, hk1, hkc⟩ := (mem_picks _ _ _).1 h
          rw [hpick] at hkc
          exact hlast (k1 + 1) (by omega) (by omega) hkc
        refine ⟨?_, ?_⟩
        · rw [a2 _ _ hnot, hfield, if_pos ⟨rfl, rfl⟩]; rfl
        · rw [a1 _ (by omega), hheap]; simp
      | succ k =>
        obtain ⟨b1, b2⟩ := a3 k (by omega) (fun k1 h1 h2 => by
          rw [hpick, hpick]
          exact hlast (k1 + 1) (by omega) (by omega))
        rw [hpick, hnext] at b1 b2
        refine ⟨?_, ?_⟩
        · rw [b1]; congr 1; omega
        · have e1 : w.next + (k + 1) = w.next + 1 + k := by omega
          have e2 : lo + (k + 1) = lo + 1 + k := by omega
          rw [e1, e2]; exact b2

theorem countP_le_of_subset {α : Type} (l m : List α) (hl : l.Nodup) (P : α → Bool)
    (h : ∀ c ∈ l, P c = true → c ∈ m) : l.countP P ≤ m.length := by
  rw [List.countP_eq_length_filter]
  apply List.Subperm.length_le
  apply List.Nodup.subperm (hl.filter _)
  intro c hc
  obtain ⟨h1, h2⟩ := List.mem_filter.mp hc
  exact h c h1 h2

theorem seedPick_mem_cells (crand : Nat → Nat) (k : Nat) : seedPick crand k ∈ cells := by
  rw [seedPick, mem_cells]
  exact ⟨randCoord_bounds _, randCoord_bounds _⟩

theorem seed_cell (rabbitRng wolfRng crand : Nat → Nat) (i j : Int)
    (h : (seed rabbitRng wolfRng crand).field i j ≠ none) :
    ∃ k, k < 30 ∧ seedPick crand k = (i, j)
      ∧ (∀ k1, k < k1 → k1 < 30 → seedPick crand k1 ≠ (i, j))
      ∧ (seed rabbitRng wolfRng crand).actor i j = some (seedKind k i j) := by
  rw [seed_eq_seedFrom] at h ⊢
  obtain ⟨_, a2, a3⟩ := seedFrom_spec 30 0 (emptyWorld rabbitRng wolfRng crand)
  have hmem : (i, j) ∈ (emptyWorld rabbitRng wolfRng crand).picks 30 := by
    by_contra hn
    exact h (a2 i j hn)
  obtain ⟨k, hk, hkc, hlast⟩ := last_occurrence
    (emptyWorld rabbitRng wolfRng crand).pickAt (i, j) 30 ((mem_picks _ _ _).1 hmem)
  have hp : (emptyWorld rabbitRng wolfRng crand).pickAt k = (i, j) := hkc
  obtain ⟨b1, b2⟩ := a3 k hk (fun k1 h1 h2 => by rw [hp]; exact hlast k1 h1 h2)
  rw [hp] at b1 b2
  refine ⟨k, hk, hkc, hlast, ?_⟩
  simp only [World.actor, b1, b2, Nat.zero_add]

theorem seedKind_coords (k : Nat) (x y : Int) :
    (seedKind k x y).x = x ∧ (seedKind k x y).y = y := by
  unfold seedKind
  split
  · exact ⟨rfl, rfl⟩
  · split <;> exact ⟨rfl, rfl⟩

theorem seedKind_isCarrot (k : Nat) (x y : Int) :
    (seedKind k x y).isCarrot = true ↔ k < 15 := by
  unfold seedKind
  split
  · simp [Creature.isCarrot, *]
  · split <;> simp [Creature.isCarrot, *]

theorem seedKind_isRabbit (k : Nat) (x y : Int) :
    (seedKind k x y).isRabbit = true ↔ (15 ≤ k ∧ k < 25) := by
  unfold seedKind
  split
  · simp [Creature.isRabbit]; omega
  · split <;> simp [Creature.isRabbit] <;> omega

theorem seedKind_isWolf (k : Nat) (x y : Int) :
    (seedKind k x y).isWolf = true ↔ 25 ≤ k := by
  unfold seedKind
  split
  · simp [Creature.isWolf]; omega
  · split <;> simp [Creature.isWolf] <;> omega

theorem seed_kind_index (rabbitRng wolfRng crand : Nat → Nat) (K : Creature → Bool)
    (i j : Int)
    (h : ∃ a, (seed rabbitRng wolfRng crand).actor i j = some a ∧ K a = true) :
    ∃ k, k < 30 ∧ seedPick crand k = (i, j) ∧ K (seedKind k i j) = true := by
  obtain ⟨a, ha, hK⟩ := h
  have hne : (seed rabbitRng wolfRng crand).field i j ≠ none := by
    intro hn
    simp [World.actor, hn] at ha
  obtain ⟨k, hk, hkc, _, hact⟩ := seed_cell rabbitRng wolfRng crand i j hne
  rw [hact] at ha
  cases ha
  exact ⟨k, hk, hkc, hK⟩

theorem actor_of_isCarrot (w : World) (i j : Int) (h : w.isCarrot i j = true) :
    ∃ a, w.actor i j = some a ∧ a.isCarrot = true := by
  unfold World.isCarrot at h
  cases ha : w.actor i j with
  | none => simp [ha] at h
  | some a => exact ⟨a, rfl, by simpa [ha] using h⟩

theorem actor_of_isRabbit (w : World) (i j : Int) (h : w.isRabbit i j = true) :
    ∃ a, w.actor i j = some a ∧ a.isRabbit = true := by
  unfold World.isRabbit at h
  cases ha : w.actor i j with
  | none => simp [ha] at h
  | some a => exact ⟨a, rfl, by simpa [ha] using h⟩

theorem actor_of_isWolf (w : World) (i j : Int) (h : w.isWolf i j = true) :
    ∃ a, w.actor i j = some a ∧ a.isWolf = true := by
  unfold World.isWolf at h
  cases ha : w.actor i j with
  | none => simp [ha] at h
  | some a => exact ⟨a, rfl, by simpa [ha] using h⟩

/-- C14. Initial seeding: for every sequence of outcomes of `rand()`, with
`seedPick crand k` the cell of placement `k` (placements 0 to 14 build a `Carrot`, 15 to
24 a `Rabbit`, 25 to 29 a `Wolf`): a cell that no placement picked is empty; the cell of a
placement that no later placement picked again holds the new creature of that placement;
hence every occupied cell holds the creature of the last placement that picked it, with
stored coordinates equal to the cell; the grid holds at most 15 `Carrot`s, at most 10
`Rabbit`s and between 1 and 5 `Wolf`s, and the cell of every `Wolf` placement holds a
`Wolf`. -/
theorem seed_spec (rabbitRng wolfRng crand : Nat → Nat) :
    (∀ i j, (∀ k, k < 30 → seedPick crand k ≠ (i, j)) →
        (seed rabbitRng wolfRng crand).field i j = none)
      ∧ (∀ k, k < 30 → (∀ k1, k < k1 → k1 < 30 → seedPick crand k1 ≠ seedPick crand k) →
          (seed rabbitRng wolfRng crand).actor (seedPick crand k).1 (seedPick crand k).2
            = some (seedKind k (seedPick crand k).1 (seedPick crand k).2))
      ∧ (∀ i j, (seed rabbitRng wolfRng crand).field i j ≠ none →
          ∃ k, k < 30 ∧ seedPick crand k = (i, j)
            ∧ (∀ k1, k < k1 → k1 < 30 → seedPick crand k1 ≠ (i, j))
            ∧ (seed rabbitRng wolfRng crand).actor i j = some (seedKind k i j))
      ∧ countCarrots (seed rabbitRng wolfRng crand) ≤ 15
      ∧ countRabbits (seed rabbitRng wolfRng crand) ≤ 10
      ∧ (1 ≤ countWolves (seed rabbitRng wolfRng crand)
          ∧ countWolves (seed rabbitRng wolfRng crand) ≤ 5)
      ∧ (∀ k, 25 ≤ k → k < 30 →
          (seed rabbitRng wolfRng crand).isWolf (seedPick crand k).1 (seedPick crand k).2
            = true)
      ∧ CoordInv (seed rabbitRng wolfRng crand) := by
  have hcell := seed_cell rabbitRng wolfRng crand
  have hempty : ∀ i j, (∀ k, k < 30 → seedPick crand k ≠ (i, j)) →
      (seed rabbitRng wolfRng crand).field i j = none := by
    intro i j hno
    by_contra hne
    obtain ⟨k, hk, hkc, _⟩ := hcell i j hne
    exact hno k hk hkc
  have hlastk : ∀ k, k < 30 →
      (∀ k1, k < k1 → k1 < 30 → seedPick crand k1 ≠ seedPick crand k) →
      (seed rabbitRng wolfRng crand).actor (seedPick crand k).1 (seedPick crand k).2
        = some (seedKind k (seedPick crand k).1 (seedPick crand k).2) := by
    intro k hk hlast
    rw [seed_eq_seedFrom]
    obtain ⟨_, _, a3⟩ := seedFrom_spec 30 0 (emptyWorld rabbitRng wolfRng crand)
    obtain ⟨b1, b2⟩ := a3 k hk hlast
    have b1' : (seedFrom 0 30 (emptyWorld rabbitRng wolfRng crand)).field
        (seedPick crand k).1 (seedPick crand k).2 = some (0 + k) := b1
    have b2' : (seedFrom 0 30 (emptyWorld rabbitRng wolfRng crand)).heap (0 + k)
        = some (seedKind (0 + k) (seedPick crand k).1 (seedPick crand k).2) := b2
    simp only [World.actor, b1']
    rw [Nat.zero_add] at b2' ⊢
    exact b2'
  have hwolfpick : ∀ k, 25 ≤ k → k < 30 →
      (seed rabbitRng wolfRng crand).isWolf (seedPick crand k).1 (seedPick crand k).2
        = true := by
    intro k hk25 hk30
    obtain ⟨k0, h0, h1, h2⟩ := last_occurrence (seedPick crand) (seedPick crand k) 30
      ⟨k, hk30, rfl⟩
    have hge : k ≤ k0 := by
      by_contra hlt
      exact h2 k (by omega) hk30 rfl
    have hact := hlastk k0 h0 (fun k1 a b => by rw [h1]; exact h2 k1 a b)
    rw [h1] at hact
    simp only [World.isWolf, hact]
    exact (seedKind_isWolf k0 _ _).2 (by omega)
  refine ⟨hempty, hlastk, hcell, ?_, ?_, ⟨?_, ?_⟩, hwolfpick, ?_⟩
  · unfold countCarrots
    have := countP_le_of_subset cells ((List.range 15).map (seedPick crand)) cells_nodup
      (fun c => (seed rabbitRng wolfRng crand).isCarrot c.1 c.2) (by
        rintro ⟨i, j⟩ _ hc
        obtain ⟨k, _, hkc, hK⟩ := seed_kind_index rabbitRng wolfRng crand Creature.isCarrot
          i j (actor_of_isCarrot _ i j hc)
        exact List.mem_map.2 ⟨k, List.mem_range.2 ((seedKind_isCarrot k i j).1 hK), hkc⟩)
    simp only [List.length_map, List.length_range] at this
    exact_mod_cast this
  · unfold countRabbits
    have := countP_le_of_subset cells
      ((List.range 10).map fun t => seedPick crand (15 + t)) cells_nodup
      (fun c => (seed rabbitRng wolfRng crand).isRabbit c.1 c.2) (by
        rintro ⟨i, j⟩ _ hc
        obtain ⟨k, _, hkc, hK⟩ := seed_kind_index rabbitRng wolfRng crand Creature.isRabbit
          i j (actor_of_isRabbit _ i j hc)
        have hr := (seedKind_isRabbit k i j).1 hK
        refine List.mem_map.2 ⟨k - 15, List.mem_range.2 (by omega), ?_⟩
        have e : 15 + (k - 15) = k := by omega
        rw [e]; exact hkc)
    simp only [List.length_map, List.length_range] at this
    exact_mod_cast this
  · unfold countWolves
    have : 1 ≤ cells.countP fun c => (seed rabbitRng wolfRng crand).isWolf c.1 c.2 :=
      List.one_le_countP_iff.2 ⟨seedPick crand 29, seedPick_mem_cells crand 29,
        hwolfpick 29 (by omega) (by omega)⟩
    exact_mod_cast this
  · unfold countWolves
    have := countP_le_of_subset cells
      ((List.range 5).map fun t => seedPick crand (25 + t)) cells_nodup
      (fun c => (seed rabbitRng wolfRng crand).isWolf c.1 c.2) (by
        rintro ⟨i, j⟩ _ hc
        obtain ⟨k, hk30, hkc, hK⟩ := seed_kind_index rabbitRng wolfRng crand Creature.isWolf
          i j (actor_of_isWolf _ i j hc)
        have hr := (seedKind_isWolf k i j).1 hK
        refine List.mem_map.2 ⟨k - 25, List.mem_range.2 (by omega), ?_⟩
        have e : 25 + (k - 25) = k := by omega
        rw [e]; exact hkc)
    simp only [List.length_map, List.length_range] at this
    exact_mod_cast this
  · rintro ⟨i, j⟩ _ a ha
    have hne : (seed rabbitRng wolfRng crand).field i j ≠ none := by
      intro hn
      simp [World.actor, hn] at ha
    obtain ⟨k, _, _, _, hact⟩ := hcell i j hne
    rw [hact] at ha
    cases ha
    exact seedKind_coords k i j

end Sim
